import Mathlib

/-!
Verification development for the sbpf repository: a shallow embedding of the
64-bit ELF parser (`src/elf_parser/mod.rs`) and of the single-instruction
disassembler (`src/disassembler.rs`), together with theorems settling the
frozen claims about them.

Machine integers are modelled as `Nat` (with explicit `% 2 ^ 64` style bounds
where the source performs checked or wrapping arithmetic) and signed values as
`Int`.  Byte buffers are `List Nat` with every element intended below 256.
Pointer alignment checks in the source inspect real addresses, so every
function that performs such a check receives the buffer's base address
explicitly as `base : Nat`.
-/

set_option maxRecDepth 20000

deriving instance DecidableEq for Except

namespace Sbpf

/-- Errors of the ELF parser, mirroring `ElfParserError` in
`src/elf_parser/mod.rs`.  `StringTooLong` carries the raw bytes of the
unterminated window (the source applies `String::from_utf8_lossy` to exactly
these bytes to build the error string) and the maximum length. -/
inductive ElfParserError where
  | InvalidFileHeader
  | InvalidProgramHeader
  | InvalidSectionHeader
  | InvalidString
  | StringTooLong (windowBytes : List Nat) (maxLen : Nat)
  | OutOfBounds
  | InvalidSize
  | Overlap
  | SectionNotInOrder
  | NoSectionNameStringTable
  | InvalidDynamicSectionTable
  | InvalidRelocationTable
  | InvalidAlignment
  | NoStringTable
  | NoDynamicStringTable
  deriving DecidableEq

/-- The modulus of `u64`/`usize` arithmetic. -/
def U64MOD : Nat := 2 ^ 64

/-- `err_checked_add` on `u64`/`usize`: overflow becomes `OutOfBounds`
(`impl From<ArithmeticOverflow> for ElfParserError`). -/
def errCheckedAdd (a b : Nat) : Except ElfParserError Nat :=
  if a + b < U64MOD then .ok (a + b) else .error .OutOfBounds

/-- `err_checked_mul` on `usize`. -/
def errCheckedMul (a b : Nat) : Except ElfParserError Nat :=
  if a * b < U64MOD then .ok (a * b) else .error .OutOfBounds

/-- `err_checked_sub` on `u64`: underflow becomes `OutOfBounds`. -/
def errCheckedSub (a b : Nat) : Except ElfParserError Nat :=
  if b ≤ a then .ok (a - b) else .error .OutOfBounds

/-- A half-open index range `start..stop`, as Rust's `Range<usize>`. -/
structure RangeN where
  start : Nat
  stop : Nat
  deriving DecidableEq

/-- `Range::len` (0 when `stop < start`, as for Rust's exact-size iterator). -/
def RangeN.len (r : RangeN) : Nat := r.stop - r.start

/-- `bytes.get(range)` on a slice: `some` sub-slice iff
`start ≤ stop ∧ stop ≤ len`. -/
def getRange (bytes : List Nat) (r : RangeN) : Option (List Nat) :=
  if r.start ≤ r.stop ∧ r.stop ≤ bytes.length then
    some ((bytes.drop r.start).take r.len)
  else none

/-- `check_that_there_is_no_overlap` from `src/elf_parser/mod.rs`. -/
def check_that_there_is_no_overlap (a b : RangeN) : Except ElfParserError Unit :=
  if a.stop ≤ b.start ∨ b.stop ≤ a.start then .ok () else .error .Overlap

/-! ### ELF constants

Modelled from the spec: `consts.rs` is not among the sources; these are the
standard ELF values named by the spec's glossary and parse algorithm. -/

/-- Modelled from the spec: the four ELF magic bytes `0x7f 'E' 'L' 'F'`,
read as one little-endian 32-bit value. -/
def ELFMAG : Nat := 0x464c457f

/-- Modelled from the spec: 64-bit class. -/
def ELFCLASS64 : Nat := 2

/-- Modelled from the spec: little-endian data encoding. -/
def ELFDATA2LSB : Nat := 1

/-- Modelled from the spec: the current ELF version. -/
def EV_CURRENT : Nat := 1

/-- Modelled from the spec: the undefined section index. -/
def SHN_UNDEF : Nat := 0

/-- Modelled from the spec: `PT_LOAD` program-header type. -/
def PT_LOAD : Nat := 1

/-- Modelled from the spec: `PT_DYNAMIC` program-header type. -/
def PT_DYNAMIC : Nat := 2

/-- Modelled from the spec: `SHT_NULL` section type. -/
def SHT_NULL : Nat := 0

/-- Modelled from the spec: `SHT_SYMTAB` section type. -/
def SHT_SYMTAB : Nat := 2

/-- Modelled from the spec: `SHT_STRTAB` section type. -/
def SHT_STRTAB : Nat := 3

/-- Modelled from the spec: `SHT_DYNAMIC` section type. -/
def SHT_DYNAMIC : Nat := 6

/-- Modelled from the spec: `SHT_NOBITS` section type. -/
def SHT_NOBITS : Nat := 8

/-- Modelled from the spec: `SHT_DYNSYM` section type. -/
def SHT_DYNSYM : Nat := 11

/-- Modelled from the spec: `DT_NULL` dynamic tag. -/
def DT_NULL : Int := 0

/-- Modelled from the spec: `DT_SYMTAB` dynamic tag. -/
def DT_SYMTAB : Nat := 6

/-- Modelled from the spec: `DT_REL` dynamic tag. -/
def DT_REL : Nat := 17

/-- Modelled from the spec: `DT_RELSZ` dynamic tag. -/
def DT_RELSZ : Nat := 18

/-- Modelled from the spec: `DT_RELENT` dynamic tag. -/
def DT_RELENT : Nat := 19

/-- Modelled from the spec: `DT_NUM` bounds the dense dynamic-tag table. -/
def DT_NUM : Nat := 34

/-- Maximum length of a section name (`SECTION_NAME_LENGTH_MAXIMUM`). -/
def SECTION_NAME_LENGTH_MAXIMUM : Nat := 16

/-- Maximum length of a symbol name (`SYMBOL_NAME_LENGTH_MAXIMUM`). -/
def SYMBOL_NAME_LENGTH_MAXIMUM : Nat := 64

/-! ### POD header records and their byte decoding

Modelled from the spec: `types.rs` is not among the sources.  The spec (§3)
fixes the field order of each record, natural alignment and little-endian
encoding; the record sizes are pinned by the source's header checks
(`e_ehsize == 64`, `e_phentsize == 56`, `e_shentsize == 64`) and
`size_of::<Elf64Rel>() == 16` etc.  All these records have alignment 8. -/

/-- Modelled from the spec: the ELF file header (`Elf64Ehdr`, 64 bytes). -/
structure Elf64Ehdr where
  ei_mag : Nat
  ei_class : Nat
  ei_data : Nat
  ei_version : Nat
  e_type : Nat
  e_machine : Nat
  e_version : Nat
  e_entry : Nat
  e_phoff : Nat
  e_shoff : Nat
  e_flags : Nat
  e_ehsize : Nat
  e_phentsize : Nat
  e_phnum : Nat
  e_shentsize : Nat
  e_shnum : Nat
  e_shstrndx : Nat
  deriving DecidableEq

/-- Modelled from the spec: a program header (`Elf64Phdr`, 56 bytes). -/
structure Elf64Phdr where
  p_type : Nat
  p_flags : Nat
  p_offset : Nat
  p_vaddr : Nat
  p_paddr : Nat
  p_filesz : Nat
  p_memsz : Nat
  p_align : Nat
  deriving DecidableEq

/-- Modelled from the spec: a section header (`Elf64Shdr`, 64 bytes). -/
structure Elf64Shdr where
  sh_name : Nat
  sh_type : Nat
  sh_flags : Nat
  sh_addr : Nat
  sh_offset : Nat
  sh_size : Nat
  sh_link : Nat
  sh_info : Nat
  sh_addralign : Nat
  sh_entsize : Nat
  deriving DecidableEq

/-- Modelled from the spec: a symbol record (`Elf64Sym`, 24 bytes). -/
structure Elf64Sym where
  st_name : Nat
  st_info : Nat
  st_other : Nat
  st_shndx : Nat
  st_value : Nat
  st_size : Nat
  deriving DecidableEq

/-- Modelled from the spec: a relocation record (`Elf64Rel`, 16 bytes). -/
structure Elf64Rel where
  r_offset : Nat
  r_info : Nat
  deriving DecidableEq

/-- Modelled from the spec: a dynamic entry (`Elf64Dyn`, 16 bytes);
`d_tag` is the signed `Elf64Sxword`. -/
structure Elf64Dyn where
  d_tag : Int
  d_val : Nat
  deriving DecidableEq

/-- Little-endian read of `n` bytes of `bytes` starting at `off`. -/
def readLE (bytes : List Nat) : Nat → Nat → Nat
  | _, 0 => 0
  | off, n + 1 => bytes.getD off 0 + 256 * readLE bytes (off + 1) n

/-- Reinterpret a `u64` bit pattern as `i64` (two's complement). -/
def toI64 (n : Nat) : Int := if n < 2 ^ 63 then (n : Int) else (n : Int) - 2 ^ 64

/-- Decode an `Elf64Ehdr` from its 64-byte chunk. -/
def decodeEhdr (c : List Nat) : Elf64Ehdr :=
  { ei_mag := readLE c 0 4
    ei_class := readLE c 4 1
    ei_data := readLE c 5 1
    ei_version := readLE c 6 1
    e_type := readLE c 16 2
    e_machine := readLE c 18 2
    e_version := readLE c 20 4
    e_entry := readLE c 24 8
    e_phoff := readLE c 32 8
    e_shoff := readLE c 40 8
    e_flags := readLE c 48 4
    e_ehsize := readLE c 52 2
    e_phentsize := readLE c 54 2
    e_phnum := readLE c 56 2
    e_shentsize := readLE c 58 2
    e_shnum := readLE c 60 2
    e_shstrndx := readLE c 62 2 }

/-- Decode an `Elf64Phdr` from its 56-byte chunk. -/
def decodePhdr (c : List Nat) : Elf64Phdr :=
  { p_type := readLE c 0 4
    p_flags := readLE c 4 4
    p_offset := readLE c 8 8
    p_vaddr := readLE c 16 8
    p_paddr := readLE c 24 8
    p_filesz := readLE c 32 8
    p_memsz := readLE c 40 8
    p_align := readLE c 48 8 }

/-- Decode an `Elf64Shdr` from its 64-byte chunk. -/
def decodeShdr (c : List Nat) : Elf64Shdr :=
  { sh_name := readLE c 0 4
    sh_type := readLE c 4 4
    sh_flags := readLE c 8 8
    sh_addr := readLE c 16 8
    sh_offset := readLE c 24 8
    sh_size := readLE c 32 8
    sh_link := readLE c 40 4
    sh_info := readLE c 44 4
    sh_addralign := readLE c 48 8
    sh_entsize := readLE c 56 8 }

/-- Decode an `Elf64Sym` from its 24-byte chunk. -/
def decodeSym (c : List Nat) : Elf64Sym :=
  { st_name := readLE c 0 4
    st_info := readLE c 4 1
    st_other := readLE c 5 1
    st_shndx := readLE c 6 2
    st_value := readLE c 8 8
    st_size := readLE c 16 8 }

/-- Decode an `Elf64Rel` from its 16-byte chunk. -/
def decodeRel (c : List Nat) : Elf64Rel :=
  { r_offset := readLE c 0 8
    r_info := readLE c 8 8 }

/-- Decode an `Elf64Dyn` from its 16-byte chunk. -/
def decodeDyn (c : List Nat) : Elf64Dyn :=
  { d_tag := toI64 (readLE c 0 8)
    d_val := readLE c 8 8 }

/-- Split the first `n` chunks of `sz` bytes off a byte list, mirroring
`slice::from_raw_parts(ptr, n)` over consecutive `sz`-byte records. -/
def chunksN (sz : Nat) : Nat → List Nat → List (List Nat)
  | 0, _ => []
  | n + 1, l => l.take sz :: chunksN sz n (l.drop sz)

/-- `Elf64::slice_from_bytes::<T>` with `sz = size_of::<T>()` and
`al = align_of::<T>()`; `base` is the address of `bytes[0]`.  Check order as
in the source: record-size divisibility, then bounds, then alignment of the
start address; on success the slice has `range.len() / sz` records. -/
def slice_from_bytes (sz al base : Nat) (bytes : List Nat) (r : RangeN) :
    Except ElfParserError (List (List Nat)) :=
  if sz = 0 ∨ r.len % sz ≠ 0 then .error .InvalidSize
  else
    match getRange bytes r with
    | none => .error .OutOfBounds
    | some chunk =>
      if al = 0 ∨ (base + r.start) % al ≠ 0 then .error .InvalidAlignment
      else .ok (chunksN sz (r.len / sz) chunk)

/-- `slice_from_bytes::<Elf64Phdr>` composed with decoding. -/
def slicePhdrs (base : Nat) (bytes : List Nat) (r : RangeN) :
    Except ElfParserError (List Elf64Phdr) :=
  (slice_from_bytes 56 8 base bytes r).map (List.map decodePhdr)

/-- `slice_from_bytes::<Elf64Shdr>` composed with decoding. -/
def sliceShdrs (base : Nat) (bytes : List Nat) (r : RangeN) :
    Except ElfParserError (List Elf64Shdr) :=
  (slice_from_bytes 64 8 base bytes r).map (List.map decodeShdr)

/-- `slice_from_bytes::<Elf64Sym>` composed with decoding. -/
def sliceSyms (base : Nat) (bytes : List Nat) (r : RangeN) :
    Except ElfParserError (List Elf64Sym) :=
  (slice_from_bytes 24 8 base bytes r).map (List.map decodeSym)

/-- `slice_from_bytes::<Elf64Rel>` composed with decoding. -/
def sliceRels (base : Nat) (bytes : List Nat) (r : RangeN) :
    Except ElfParserError (List Elf64Rel) :=
  (slice_from_bytes 16 8 base bytes r).map (List.map decodeRel)

/-- `slice_from_bytes::<Elf64Dyn>` composed with decoding. -/
def sliceDyns (base : Nat) (bytes : List Nat) (r : RangeN) :
    Except ElfParserError (List Elf64Dyn) :=
  (slice_from_bytes 16 8 base bytes r).map (List.map decodeDyn)

/-- `Elf64::slice_from_program_header::<Elf64Dyn>`. -/
def slice_dyns_from_program_header (base : Nat) (bytes : List Nat)
    (ph : Elf64Phdr) : Except ElfParserError (List Elf64Dyn) :=
  match errCheckedAdd ph.p_offset ph.p_filesz with
  | .error e => .error e
  | .ok e => sliceDyns base bytes ⟨ph.p_offset, e⟩

/-- `Elf64::slice_from_section_header::<Elf64Dyn>`. -/
def slice_dyns_from_section_header (base : Nat) (bytes : List Nat)
    (sh : Elf64Shdr) : Except ElfParserError (List Elf64Dyn) :=
  match errCheckedAdd sh.sh_offset sh.sh_size with
  | .error e => .error e
  | .ok e => sliceDyns base bytes ⟨sh.sh_offset, e⟩

/-- `Elf64::slice_from_section_header::<Elf64Sym>`. -/
def slice_syms_from_section_header (base : Nat) (bytes : List Nat)
    (sh : Elf64Shdr) : Except ElfParserError (List Elf64Sym) :=
  match errCheckedAdd sh.sh_offset sh.sh_size with
  | .error e => .error e
  | .ok e => sliceSyms base bytes ⟨sh.sh_offset, e⟩

/-! ### The parsed view and the parse pipeline -/

/-- The parsed structure of an ELF file (`struct Elf64<'a>`); borrowed
references become copies of the referenced values, and `base_addr` records
the address of `elf_bytes[0]` that the borrowed slice carries implicitly. -/
structure Elf64 where
  base_addr : Nat
  elf_bytes : List Nat
  file_header : Elf64Ehdr
  program_header_table : List Elf64Phdr
  section_header_table : List Elf64Shdr
  section_names_section_header : Option Elf64Shdr
  symbol_section_header : Option Elf64Shdr
  symbol_names_section_header : Option Elf64Shdr
  dynamic_table : List Nat
  dynamic_relocations_table : Option (List Elf64Rel)
  dynamic_symbol_table : Option (List Elf64Sym)
  dynamic_symbol_names_section_header : Option Elf64Shdr
  deriving DecidableEq

/-- `Elf64::parse_file_header`: the first 64 bytes, with the buffer base
address checked against the header alignment (8). -/
def parse_file_header (base : Nat) (bytes : List Nat) :
    Except ElfParserError (RangeN × Elf64Ehdr) :=
  match getRange bytes ⟨0, 64⟩ with
  | none => .error .OutOfBounds
  | some chunk =>
    if base % 8 ≠ 0 then .error .InvalidAlignment
    else .ok (⟨0, 64⟩, decodeEhdr chunk)

/-- `Elf64::parse_program_header_table`. -/
def parse_program_header_table (base : Nat) (bytes : List Nat)
    (fhr : RangeN) (fh : Elf64Ehdr) :
    Except ElfParserError (RangeN × List Elf64Phdr) :=
  match errCheckedMul 56 fh.e_phnum with
  | .error e => .error e
  | .ok m =>
    match errCheckedAdd m fh.e_phoff with
    | .error e => .error e
    | .ok e2 =>
      match check_that_there_is_no_overlap fhr ⟨fh.e_phoff, e2⟩ with
      | .error e => .error e
      | .ok _ =>
        match slicePhdrs base bytes ⟨fh.e_phoff, e2⟩ with
        | .error e => .error e
        | .ok t => .ok (⟨fh.e_phoff, e2⟩, t)

/-- `Elf64::parse_section_header_table`. -/
def parse_section_header_table (base : Nat) (bytes : List Nat)
    (fhr : RangeN) (fh : Elf64Ehdr) (phr : RangeN) :
    Except ElfParserError (RangeN × List Elf64Shdr) :=
  match errCheckedMul 64 fh.e_shnum with
  | .error e => .error e
  | .ok m =>
    match errCheckedAdd m fh.e_shoff with
    | .error e => .error e
    | .ok e2 =>
      match check_that_there_is_no_overlap fhr ⟨fh.e_shoff, e2⟩ with
      | .error e => .error e
      | .ok _ =>
        match check_that_there_is_no_overlap phr ⟨fh.e_shoff, e2⟩ with
        | .error e => .error e
        | .ok _ =>
          match sliceShdrs base bytes ⟨fh.e_shoff, e2⟩ with
          | .error e => .error e
          | .ok t => .ok (⟨fh.e_shoff, e2⟩, t)

/-- The `PT_LOAD` sweep of `Elf64::parse` (lines 180-197): monotonically
non-decreasing `p_vaddr` and checked `p_offset + p_filesz ≤ buffer_len`,
with the running previous vaddr as accumulator. -/
def loadSweep (len : Nat) : Nat → List Elf64Phdr → Except ElfParserError Unit
  | _, [] => .ok ()
  | vaddr, ph :: rest =>
    if ph.p_type ≠ PT_LOAD then loadSweep len vaddr rest
    else if ph.p_vaddr < vaddr then .error .InvalidProgramHeader
    else
      match errCheckedAdd ph.p_offset ph.p_filesz with
      | .error e => .error e
      | .ok s =>
        if s > len then .error .OutOfBounds
        else loadSweep len ph.p_vaddr rest

/-- The section sweep of `Elf64::parse` (lines 199-217), with the previous
section range end as accumulator `off`. -/
def sectionSweep (fhr phr shr : RangeN) (len : Nat) :
    Nat → List Elf64Shdr → Except ElfParserError Unit
  | _, [] => .ok ()
  | off, sh :: rest =>
    if sh.sh_type = SHT_NOBITS then sectionSweep fhr phr shr len off rest
    else
      match errCheckedAdd sh.sh_offset sh.sh_size with
      | .error e => .error e
      | .ok e2 =>
        match check_that_there_is_no_overlap ⟨sh.sh_offset, e2⟩ fhr with
        | .error e => .error e
        | .ok _ =>
          match check_that_there_is_no_overlap ⟨sh.sh_offset, e2⟩ phr with
          | .error e => .error e
          | .ok _ =>
            match check_that_there_is_no_overlap ⟨sh.sh_offset, e2⟩ shr with
            | .error e => .error e
            | .ok _ =>
              if sh.sh_offset < off then .error .SectionNotInOrder
              else if e2 > len then .error .OutOfBounds
              else sectionSweep fhr phr shr len e2 rest

/-- Position of the first zero byte (`iter().position(|b| *b == 0)`). -/
def firstZeroPos : List Nat → Option Nat
  | [] => none
  | b :: rest => if b = 0 then some 0 else (firstZeroPos rest).map (· + 1)

/-- `Elf64::get_string_in_section`. -/
def get_string_in_section (bytes : List Nat) (sh : Elf64Shdr)
    (offset_in_section maximum_length : Nat) :
    Except ElfParserError (List Nat) :=
  if sh.sh_type ≠ SHT_STRTAB then .error .InvalidSectionHeader
  else
    match errCheckedAdd sh.sh_offset offset_in_section with
    | .error e => .error e
    | .ok offset_in_file =>
      match errCheckedAdd sh.sh_offset sh.sh_size with
      | .error e => .error e
      | .ok sectionEnd =>
        match errCheckedAdd offset_in_file maximum_length with
        | .error e => .error e
        | .ok windowEnd =>
          match getRange bytes ⟨offset_in_file, min sectionEnd windowEnd⟩ with
          | none => .error .OutOfBounds
          | some w =>
            match firstZeroPos w with
            | some k =>
              if k ≤ w.length then .ok (w.take k)
              else .error (.StringTooLong w maximum_length)
            | none => .error (.StringTooLong w maximum_length)

/-- The bytes of the section name `".symtab"`. -/
def nameSymtab : List Nat := [46, 115, 121, 109, 116, 97, 98]

/-- The bytes of the section name `".strtab"`. -/
def nameStrtab : List Nat := [46, 115, 116, 114, 116, 97, 98]

/-- The bytes of the section name `".dynstr"`. -/
def nameDynstr : List Nat := [46, 100, 121, 110, 115, 116, 114]

/-- The loop body of `Elf64::parse_sections`: resolve each section's name in
the section-name string table and record the `.symtab` / `.strtab` /
`.dynstr` headers, rejecting duplicates. -/
def parseSectionsLoop (bytes : List Nat) (snsh : Elf64Shdr) :
    Elf64 → List Elf64Shdr → Except ElfParserError Elf64
  | p, [] => .ok p
  | p, sh :: rest =>
    match get_string_in_section bytes snsh sh.sh_name
        SECTION_NAME_LENGTH_MAXIMUM with
    | .error e => .error e
    | .ok nm =>
      if nm = nameSymtab then
        match p.symbol_section_header with
        | some _ => .error .InvalidSectionHeader
        | none =>
          parseSectionsLoop bytes snsh
            { p with symbol_section_header := some sh } rest
      else if nm = nameStrtab then
        match p.symbol_names_section_header with
        | some _ => .error .InvalidSectionHeader
        | none =>
          parseSectionsLoop bytes snsh
            { p with symbol_names_section_header := some sh } rest
      else if nm = nameDynstr then
        match p.dynamic_symbol_names_section_header with
        | some _ => .error .InvalidSectionHeader
        | none =>
          parseSectionsLoop bytes snsh
            { p with dynamic_symbol_names_section_header := some sh } rest
      else parseSectionsLoop bytes snsh p rest

/-- `Elf64::parse_sections`. -/
def parse_sections (p : Elf64) : Except ElfParserError Elf64 :=
  match p.section_names_section_header with
  | none => .error .NoSectionNameStringTable
  | some snsh => parseSectionsLoop p.elf_bytes snsh p p.section_header_table

/-- `d_tag as usize` (two's complement cast of the signed tag). -/
def tagAsUsize (t : Int) : Nat := (t.emod (2 ^ 64)).toNat

/-- The dynamic-entry absorption loop of `Elf64::parse_dynamic`
(lines 398-408): stop at `DT_NULL`, skip tags `≥ DT_NUM`, write `d_val` at
index `d_tag` of the dense table. -/
def absorbDynEntries : List Nat → List Elf64Dyn → List Nat
  | tbl, [] => tbl
  | tbl, e :: rest =>
    if e.d_tag = DT_NULL then tbl
    else if DT_NUM ≤ tagAsUsize e.d_tag then absorbDynEntries tbl rest
    else absorbDynEntries (tbl.set (tagAsUsize e.d_tag) e.d_val) rest

/-- `Elf64::program_header_for_vaddr`: the first program header (of any
type) whose checked vm range contains `vaddr`. -/
def program_header_for_vaddr :
    List Elf64Phdr → Nat → Except ElfParserError (Option Elf64Phdr)
  | [], _ => .ok none
  | ph :: rest, vaddr =>
    match errCheckedAdd ph.p_vaddr ph.p_memsz with
    | .error e => .error e
    | .ok e2 =>
      if ph.p_vaddr ≤ vaddr ∧ vaddr < e2 then .ok (some ph)
      else program_header_for_vaddr rest vaddr

/-- `Elf64::parse_dynamic_relocations`. -/
def parse_dynamic_relocations (p : Elf64) :
    Except ElfParserError (Option (List Elf64Rel)) :=
  let vaddr := p.dynamic_table.getD DT_REL 0
  if vaddr = 0 then .ok none
  else if p.dynamic_table.getD DT_RELENT 0 ≠ 16 then
    .error .InvalidDynamicSectionTable
  else
    let relSize := p.dynamic_table.getD DT_RELSZ 0
    if relSize = 0 then .error .InvalidDynamicSectionTable
    else
      match program_header_for_vaddr p.program_header_table vaddr with
      | .error e => .error e
      | .ok resolved =>
        let offsetE : Except ElfParserError Nat :=
          match resolved with
          | some ph =>
            match errCheckedSub vaddr ph.p_vaddr with
            | .error e => .error e
            | .ok d => errCheckedAdd d ph.p_offset
          | none =>
            match p.section_header_table.find?
                (fun sh => sh.sh_addr == vaddr) with
            | some sh => .ok sh.sh_offset
            | none => .error .InvalidDynamicSectionTable
        match offsetE with
        | .error e => .error e
        | .ok off =>
          match errCheckedAdd off relSize with
          | .error e => .error e
          | .ok e2 =>
            match sliceRels p.base_addr p.elf_bytes ⟨off, e2⟩ with
            | .ok t => .ok (some t)
            | .error _ => .error .InvalidDynamicSectionTable

/-- `Elf64::get_symbol_table_of_section`. -/
def get_symbol_table_of_section (p : Elf64) (sh : Elf64Shdr) :
    Except ElfParserError (List Elf64Sym) :=
  if sh.sh_type ≠ SHT_SYMTAB ∧ sh.sh_type ≠ SHT_DYNSYM then
    .error .InvalidSectionHeader
  else slice_syms_from_section_header p.base_addr p.elf_bytes sh

/-- `Elf64::symbol_table`. -/
def symbol_table (p : Elf64) :
    Except ElfParserError (Option (List Elf64Sym)) :=
  match p.symbol_section_header with
  | none => .ok none
  | some sh =>
    match get_symbol_table_of_section p sh with
    | .error e => .error e
    | .ok t => .ok (some t)

/-- `Elf64::parse_dynamic_symbol_table`. -/
def parse_dynamic_symbol_table (p : Elf64) :
    Except ElfParserError (Option (List Elf64Sym)) :=
  let vaddr := p.dynamic_table.getD DT_SYMTAB 0
  if vaddr = 0 then .ok none
  else
    match p.section_header_table.find? (fun sh => sh.sh_addr == vaddr) with
    | none => .error .InvalidDynamicSectionTable
    | some sh =>
      match get_symbol_table_of_section p sh with
      | .error e => .error e
      | .ok t => .ok (some t)

/-- The dynamic-table discovery of `Elf64::parse_dynamic` (lines 362-395):
prefer a `PT_DYNAMIC` program header (errors swallowed by `.ok()`), fall
back to an `SHT_DYNAMIC` section (errors becoming
`InvalidDynamicSectionTable`), else `none`: the file is static. -/
def dynTableCandidate (p : Elf64) :
    Except ElfParserError (Option (List Elf64Dyn)) :=
  match
    (match p.program_header_table.find? (fun ph => ph.p_type == PT_DYNAMIC) with
     | none => none
     | some ph =>
       (slice_dyns_from_program_header p.base_addr p.elf_bytes ph).toOption)
  with
  | some t => .ok (some t)
  | none =>
    match p.section_header_table.find? (fun sh => sh.sh_type == SHT_DYNAMIC) with
    | none => .ok none
    | some sh =>
      match slice_dyns_from_section_header p.base_addr p.elf_bytes sh with
      | .ok t => .ok (some t)
      | .error _ => .error .InvalidDynamicSectionTable

/-- `Elf64::parse_dynamic`. -/
def parse_dynamic (p : Elf64) : Except ElfParserError Elf64 :=
  match dynTableCandidate p with
  | .error e => .error e
  | .ok none => .ok p
  | .ok (some entries) =>
    match parse_dynamic_relocations
        { p with dynamic_table := absorbDynEntries p.dynamic_table entries } with
    | .error e => .error e
    | .ok rel =>
      match parse_dynamic_symbol_table
          { p with dynamic_table := absorbDynEntries p.dynamic_table entries
                   dynamic_relocations_table := rel } with
      | .error e => .error e
      | .ok sym =>
        .ok { p with dynamic_table := absorbDynEntries p.dynamic_table entries
                     dynamic_relocations_table := rel
                     dynamic_symbol_table := sym }

/-- The section-name-table step of `Elf64::parse` (lines 219-225). -/
def sectionNamesHeader (fh : Elf64Ehdr) (sht : List Elf64Shdr) :
    Except ElfParserError (Option Elf64Shdr) :=
  if fh.e_shstrndx ≠ SHN_UNDEF then
    match sht[fh.e_shstrndx]? with
    | some sh => .ok (some sh)
    | none => .error .OutOfBounds
  else .ok none

/-- The partially initialised parser view built in `Elf64::parse` before
`parse_sections` and `parse_dynamic` run. -/
def initView (base : Nat) (bytes : List Nat) (fh : Elf64Ehdr)
    (pht : List Elf64Phdr) (sht : List Elf64Shdr)
    (snsh : Option Elf64Shdr) : Elf64 :=
  { base_addr := base
    elf_bytes := bytes
    file_header := fh
    program_header_table := pht
    section_header_table := sht
    section_names_section_header := snsh
    symbol_section_header := none
    symbol_names_section_header := none
    dynamic_table := List.replicate DT_NUM 0
    dynamic_relocations_table := none
    dynamic_symbol_table := none
    dynamic_symbol_names_section_header := none }

/-- `Elf64::parse`. -/
def parse (base : Nat) (bytes : List Nat) : Except ElfParserError Elf64 :=
  match parse_file_header base bytes with
  | .error e => .error e
  | .ok (fhr, fh) =>
    if fh.ei_mag ≠ ELFMAG ∨ fh.ei_class ≠ ELFCLASS64 ∨ fh.ei_data ≠ ELFDATA2LSB
        ∨ fh.ei_version ≠ EV_CURRENT ∨ fh.e_version ≠ EV_CURRENT
        ∨ fh.e_ehsize ≠ 64 ∨ fh.e_phentsize ≠ 56 ∨ fh.e_shentsize ≠ 64
        ∨ fh.e_shnum ≤ fh.e_shstrndx then .error .InvalidFileHeader
    else
      match parse_program_header_table base bytes fhr fh with
      | .error e => .error e
      | .ok (phr, pht) =>
        match parse_section_header_table base bytes fhr fh phr with
        | .error e => .error e
        | .ok (shr, sht) =>
          match sht.head? with
          | none => .error .InvalidSectionHeader
          | some sh0 =>
            if sh0.sh_type ≠ SHT_NULL then .error .InvalidSectionHeader
            else
              match loadSweep bytes.length 0 pht with
              | .error e => .error e
              | .ok _ =>
                match sectionSweep fhr phr shr bytes.length 0 sht with
                | .error e => .error e
                | .ok _ =>
                  match sectionNamesHeader fh sht with
                  | .error e => .error e
                  | .ok snsh =>
                    match parse_sections (initView base bytes fh pht sht snsh) with
                    | .error e => .error e
                    | .ok p1 => parse_dynamic p1

/-! ### The instruction disassembler (`src/disassembler.rs`)

The opcode constants live in `ebpf.rs`, which is not among the sources, so
opcodes are modelled from the spec symbolically: one constructor per named
opcode of the jump/call class (the class the claims are about), plus `OTHER`
for every remaining encoding.  Arms of `disassemble_instruction` outside
that class render pure ALU/memory formatting and are left unmodelled (the
model returns `none` for them); the modelled arms reproduce the source
text exactly. -/

/-- Modelled from the spec: symbolic opcode catalogue (jump/call class). -/
inductive Opc where
  | JA
  | JEQ_IMM | JEQ_REG
  | JGT_IMM | JGT_REG
  | JGE_IMM | JGE_REG
  | JLT_IMM | JLT_REG
  | JLE_IMM | JLE_REG
  | JSET_IMM | JSET_REG
  | JNE_IMM | JNE_REG
  | JSGT_IMM | JSGT_REG
  | JSGE_IMM | JSGE_REG
  | JSLT_IMM | JSLT_REG
  | JSLE_IMM | JSLE_REG
  | CALL_IMM | CALL_REG
  | EXIT | RETURN | SYSCALL
  | OTHER (code : Nat)
  deriving DecidableEq

/-- One decoded instruction (`ebpf::Insn`, fields per spec §4.2:
`dst`/`src` are `u8` register numbers, `off : i16`, `imm : i64`,
`ptr : usize`). -/
structure Insn where
  opc : Opc
  dst : Nat
  src : Nat
  off : Int
  imm : Int
  ptr : Nat
  deriving DecidableEq

/-- Modelled from the spec: a CFG node carries the block label
(`CfgNode { label, … }` of the external CFG builder). -/
structure CfgNode where
  label : String
  deriving DecidableEq

/-- Modelled from the spec: the dialect record (§6.3) with its five boolean
predicates and the call-target key function. -/
structure SBPFVersion where
  move_memory_instruction_classes : Bool
  enable_pqr : Bool
  disable_neg : Bool
  static_syscalls : Bool
  callx_uses_src_reg : Bool
  calculate_call_imm_target_pc : Nat → Int → Nat

/-- `usize as isize` (two's complement reinterpretation). -/
def isizeOfUsize (n : Nat) : Int :=
  if n < 2 ^ 63 then (n : Int) else (n : Int) - 2 ^ 64

/-- `i as usize` for a signed value (wrap modulo `2 ^ 64`). -/
def usizeOfInt (i : Int) : Nat := (i.emod (2 ^ 64)).toNat

/-- `imm as u32` (wrap modulo `2 ^ 32`). -/
def u32OfInt (i : Int) : Nat := (i.emod (2 ^ 32)).toNat

/-- `imm as u8` (wrap modulo `2 ^ 8`). -/
def u8OfInt (i : Int) : Nat := (i.emod (2 ^ 8)).toNat

/-- `resolve_label`: the label of `cfg_nodes[pc]`, or `"[invalid]"`. -/
def resolve_label (cfg_nodes : Nat → Option CfgNode) (pc : Nat) : String :=
  match cfg_nodes pc with
  | some node => node.label
  | none => "[invalid]"

/-- The branch target `(insn.ptr as isize + insn.off as isize + 1) as usize`
computed in `jmp_imm_str`, `jmp_reg_str` and the `JA` arm. -/
def target_pc (insn : Insn) : Nat :=
  usizeOfInt (isizeOfUsize insn.ptr + insn.off + 1)

/-- `jmp_imm_str`. -/
def jmp_imm_str (name : String) (insn : Insn)
    (cfg_nodes : Nat → Option CfgNode) : String :=
  name ++ " r" ++ toString insn.dst ++ ", " ++ toString insn.imm ++ ", "
    ++ resolve_label cfg_nodes (target_pc insn)

/-- `jmp_reg_str`. -/
def jmp_reg_str (name : String) (insn : Insn)
    (cfg_nodes : Nat → Option CfgNode) : String :=
  name ++ " r" ++ toString insn.dst ++ ", r" ++ toString insn.src ++ ", "
    ++ resolve_label cfg_nodes (target_pc insn)

/-- `disassemble_instruction`, restricted to the jump/call opcode class.
`utf8Lossy` stands for `String::from_utf8_lossy` (a standard-library
function, passed as a parameter); `function_registry` and
`loader_registry` model `lookup_by_key` of the program registry and of
`loader.get_function_registry()`, returning the function-name bytes.
Unmodelled opcode families yield `none`. -/
def disassemble_instruction (utf8Lossy : List Nat → String) (insn : Insn)
    (pc : Nat) (cfg_nodes : Nat → Option CfgNode)
    (function_registry : Nat → Option (List Nat))
    (loader_registry : Nat → Option (List Nat))
    (sbpf_version : SBPFVersion) : Option String :=
  match insn.opc with
  | .JA => some ("ja " ++ resolve_label cfg_nodes (target_pc insn))
  | .JEQ_IMM => some (jmp_imm_str "jeq" insn cfg_nodes)
  | .JEQ_REG => some (jmp_reg_str "jeq" insn cfg_nodes)
  | .JGT_IMM => some (jmp_imm_str "jgt" insn cfg_nodes)
  | .JGT_REG => some (jmp_reg_str "jgt" insn cfg_nodes)
  | .JGE_IMM => some (jmp_imm_str "jge" insn cfg_nodes)
  | .JGE_REG => some (jmp_reg_str "jge" insn cfg_nodes)
  | .JLT_IMM => some (jmp_imm_str "jlt" insn cfg_nodes)
  | .JLT_REG => some (jmp_reg_str "jlt" insn cfg_nodes)
  | .JLE_IMM => some (jmp_imm_str "jle" insn cfg_nodes)
  | .JLE_REG => some (jmp_reg_str "jle" insn cfg_nodes)
  | .JSET_IMM => some (jmp_imm_str "jset" insn cfg_nodes)
  | .JSET_REG => some (jmp_reg_str "jset" insn cfg_nodes)
  | .JNE_IMM => some (jmp_imm_str "jne" insn cfg_nodes)
  | .JNE_REG => some (jmp_reg_str "jne" insn cfg_nodes)
  | .JSGT_IMM => some (jmp_imm_str "jsgt" insn cfg_nodes)
  | .JSGT_REG => some (jmp_reg_str "jsgt" insn cfg_nodes)
  | .JSGE_IMM => some (jmp_imm_str "jsge" insn cfg_nodes)
  | .JSGE_REG => some (jmp_reg_str "jsge" insn cfg_nodes)
  | .JSLT_IMM => some (jmp_imm_str "jslt" insn cfg_nodes)
  | .JSLT_REG => some (jmp_reg_str "jslt" insn cfg_nodes)
  | .JSLE_IMM => some (jmp_imm_str "jsle" insn cfg_nodes)
  | .JSLE_REG => some (jmp_reg_str "jsle" insn cfg_nodes)
  | .CALL_IMM =>
    let key := sbpf_version.calculate_call_imm_target_pc pc insn.imm
    let fn0 := (function_registry key).map utf8Lossy
    if ¬ sbpf_version.static_syscalls ∧ fn0 = none then
      some ("syscall "
        ++ ((loader_registry (u32OfInt insn.imm)).map utf8Lossy).getD "[invalid]")
    else some ("call " ++ fn0.getD "[invalid]")
  | .CALL_REG =>
    some ("callx r"
      ++ toString (if sbpf_version.callx_uses_src_reg then insn.src
                   else u8OfInt insn.imm))
  | .EXIT => if ¬ sbpf_version.static_syscalls then some "exit" else none
  | .RETURN => if sbpf_version.static_syscalls then some "return" else none
  | .SYSCALL =>
    if sbpf_version.static_syscalls then some ("syscall " ++ toString insn.imm)
    else none
  | .OTHER _ => none

/-! ### Concrete byte buffers used to instantiate the claims -/

/-- Little-endian encoding of `n` into `w` bytes. -/
def leBytes : Nat → Nat → List Nat
  | 0, _ => []
  | w + 1, n => n % 256 :: leBytes w (n / 256)

/-- A 64-byte `Elf64Ehdr` image with valid identification and the given
table geometry; all fields the claims leave free are zero. -/
def ehdrBytes (phoff phnum shoff shnum shstrndx : Nat) : List Nat :=
  [0x7f, 0x45, 0x4c, 0x46, 2, 1, 1, 0, 0, 0, 0, 0, 0, 0, 0, 0]
    ++ leBytes 2 0 ++ leBytes 2 0 ++ leBytes 4 1 ++ leBytes 8 0
    ++ leBytes 8 phoff ++ leBytes 8 shoff ++ leBytes 4 0
    ++ leBytes 2 64 ++ leBytes 2 56 ++ leBytes 2 phnum
    ++ leBytes 2 64 ++ leBytes 2 shnum ++ leBytes 2 shstrndx

/-- A 64-byte `Elf64Shdr` image. -/
def shdrBytes (name type offset size : Nat) : List Nat :=
  leBytes 4 name ++ leBytes 4 type ++ leBytes 8 0 ++ leBytes 8 0
    ++ leBytes 8 offset ++ leBytes 8 size ++ leBytes 4 0 ++ leBytes 4 0
    ++ leBytes 8 0 ++ leBytes 8 0

/-- The minimal-ELF buffer of the spec's first concrete scenario: a valid
file header with `e_phnum = 0`, `e_shnum = 1`, `e_shstrndx = 0`, followed at
offset 64 by a single all-zero (`SHT_NULL`) section header. -/
def c1Bytes : List Nat :=
  ehdrBytes 0 0 64 1 0 ++ List.replicate 64 0

/-- A 272-byte buffer that parses successfully and whose `.symtab`-named
section has `sh_type = SHT_PROGBITS`: file header (`e_shnum = 3`,
`e_shstrndx = 1`, `e_shoff = 80`), a 9-byte string table
`"\0.symtab\0"` at offset 64, 7 bytes of padding, and three section
headers (null; the string table; a `.symtab`-named `SHT_PROGBITS` section). -/
def c10Bytes : List Nat :=
  ehdrBytes 0 0 80 3 1
    ++ ([0] ++ nameSymtab ++ [0])
    ++ List.replicate 7 0
    ++ shdrBytes 0 0 0 0
    ++ shdrBytes 0 SHT_STRTAB 64 9
    ++ shdrBytes 1 1 73 0

/-- The parsed view of the concrete buffer `c10Bytes`. -/
def c10View : Elf64 :=
  (parse 0 c10Bytes).toOption.getD
    (initView 0 [] (decodeEhdr []) [] [] none)

/-- The `.symtab`-named section header recorded in `c10View`. -/
def c10Symtab : Elf64Shdr :=
  c10View.symbol_section_header.getD (decodeShdr [])

/-! ### Helper lemmas -/

theorem chunksN_length (sz : Nat) : ∀ (n : Nat) (l : List Nat),
    (chunksN sz n l).length = n := by
  intro n
  induction n with
  | zero => intro l; rfl
  | succ k ih => intro l; simp [chunksN, ih]

theorem firstZeroPos_none_iff (w : List Nat) :
    firstZeroPos w = none ↔ 0 ∉ w := by
  induction w with
  | nil => simp [firstZeroPos]
  | cons b t ih =>
    by_cases hb : b = 0
    · subst hb; simp [firstZeroPos]
    · simp [firstZeroPos, hb, ih, Option.map_eq_none', Ne.symm hb]

theorem firstZeroPos_some (w : List Nat) (k : Nat)
    (h : firstZeroPos w = some k) :
    k ≤ w.length ∧ w.take k = w.takeWhile (fun b => b != 0) := by
  induction w generalizing k with
  | nil => simp [firstZeroPos] at h
  | cons b t ih =>
    by_cases hb : b = 0
    · subst hb
      simp [firstZeroPos] at h
      subst h
      simp [List.takeWhile]
    · simp [firstZeroPos, hb, Option.map_eq_some'] at h
      obtain ⟨k', hk', rfl⟩ := h
      obtain ⟨h1, h2⟩ := ih k' hk'
      refine ⟨by simpa using Nat.succ_le_succ h1, ?_⟩
      simp [List.take_succ_cons, List.takeWhile_cons, hb, h2]

theorem errCheckedAdd_ok {a b c : Nat} (h : errCheckedAdd a b = .ok c) :
    c = a + b ∧ a + b < U64MOD := by
  by_cases hc : a + b < U64MOD
  · rw [errCheckedAdd, if_pos hc] at h
    cases h
    exact ⟨rfl, hc⟩
  · rw [errCheckedAdd, if_neg hc] at h
    cases h

theorem errCheckedMul_ok {a b c : Nat} (h : errCheckedMul a b = .ok c) :
    c = a * b ∧ a * b < U64MOD := by
  by_cases hc : a * b < U64MOD
  · rw [errCheckedMul, if_pos hc] at h
    cases h
    exact ⟨rfl, hc⟩
  · rw [errCheckedMul, if_neg hc] at h
    cases h

theorem parse_file_header_ok {base : Nat} {bytes : List Nat} {fhr : RangeN}
    {fh : Elf64Ehdr} (h : parse_file_header base bytes = .ok (fhr, fh)) :
    fhr = ⟨0, 64⟩ := by
  rw [parse_file_header] at h
  cases hg : getRange bytes ⟨0, 64⟩ with
  | none => rw [hg] at h; cases h
  | some chunk =>
    rw [hg] at h
    dsimp only at h
    by_cases hb : base % 8 ≠ 0
    · rw [if_pos hb] at h; cases h
    · rw [if_neg hb] at h
      cases h
      rfl

theorem parse_program_header_table_ok {base : Nat} {bytes : List Nat}
    {fhr phr : RangeN} {fh : Elf64Ehdr} {pht : List Elf64Phdr}
    (h : parse_program_header_table base bytes fhr fh = .ok (phr, pht)) :
    phr = ⟨fh.e_phoff, 56 * fh.e_phnum + fh.e_phoff⟩ := by
  rw [parse_program_header_table] at h
  cases hm : errCheckedMul 56 fh.e_phnum with
  | error e => rw [hm] at h; cases h
  | ok m =>
    rw [hm] at h
    dsimp only at h
    cases ha : errCheckedAdd m fh.e_phoff with
    | error e => rw [ha] at h; cases h
    | ok e2 =>
      rw [ha] at h
      dsimp only at h
      obtain ⟨rfl, -⟩ := errCheckedMul_ok hm
      obtain ⟨rfl, -⟩ := errCheckedAdd_ok ha
      cases hc : check_that_there_is_no_overlap fhr
          ⟨fh.e_phoff, 56 * fh.e_phnum + fh.e_phoff⟩ with
      | error e => rw [hc] at h; cases h
      | ok u =>
        rw [hc] at h
        dsimp only at h
        cases hs : slicePhdrs base bytes
            ⟨fh.e_phoff, 56 * fh.e_phnum + fh.e_phoff⟩ with
        | error e => rw [hs] at h; cases h
        | ok t =>
          rw [hs] at h
          dsimp only at h
          cases h
          rfl

theorem parse_section_header_table_ok {base : Nat} {bytes : List Nat}
    {fhr phr shr : RangeN} {fh : Elf64Ehdr} {sht : List Elf64Shdr}
    (h : parse_section_header_table base bytes fhr fh phr = .ok (shr, sht)) :
    shr = ⟨fh.e_shoff, 64 * fh.e_shnum + fh.e_shoff⟩ := by
  rw [parse_section_header_table] at h
  cases hm : errCheckedMul 64 fh.e_shnum with
  | error e => rw [hm] at h; cases h
  | ok m =>
    rw [hm] at h
    dsimp only at h
    cases ha : errCheckedAdd m fh.e_shoff with
    | error e => rw [ha] at h; cases h
    | ok e2 =>
      rw [ha] at h
      dsimp only at h
      obtain ⟨rfl, -⟩ := errCheckedMul_ok hm
      obtain ⟨rfl, -⟩ := errCheckedAdd_ok ha
      cases hc : check_that_there_is_no_overlap fhr
          ⟨fh.e_shoff, 64 * fh.e_shnum + fh.e_shoff⟩ with
      | error e => rw [hc] at h; cases h
      | ok u =>
        rw [hc] at h
        dsimp only at h
        cases hc2 : check_that_there_is_no_overlap phr
            ⟨fh.e_shoff, 64 * fh.e_shnum + fh.e_shoff⟩ with
        | error e => rw [hc2] at h; cases h
        | ok u2 =>
          rw [hc2] at h
          dsimp only at h
          cases hs : sliceShdrs base bytes
              ⟨fh.e_shoff, 64 * fh.e_shnum + fh.e_shoff⟩ with
          | error e => rw [hs] at h; cases h
          | ok t =>
            rw [hs] at h
            dsimp only at h
            cases h
            rfl

theorem parseSectionsLoop_fields (bytes : List Nat) (snsh : Elf64Shdr) :
    ∀ (l : List Elf64Shdr) (p q : Elf64),
      parseSectionsLoop bytes snsh p l = .ok q →
      q.file_header = p.file_header
      ∧ q.program_header_table = p.program_header_table
      ∧ q.section_header_table = p.section_header_table
      ∧ q.elf_bytes = p.elf_bytes
      ∧ q.base_addr = p.base_addr
      ∧ q.dynamic_table = p.dynamic_table
      ∧ q.dynamic_relocations_table = p.dynamic_relocations_table
      ∧ q.dynamic_symbol_table = p.dynamic_symbol_table := by
  intro l
  induction l with
  | nil =>
    intro p q h
    rw [parseSectionsLoop] at h
    cases h
    exact ⟨rfl, rfl, rfl, rfl, rfl, rfl, rfl, rfl⟩
  | cons sh rest ih =>
    intro p q h
    rw [parseSectionsLoop] at h
    cases hnm : get_string_in_section bytes snsh sh.sh_name
        SECTION_NAME_LENGTH_MAXIMUM with
    | error e => rw [hnm] at h; cases h
    | ok nm =>
      rw [hnm] at h
      dsimp only at h
      by_cases h1 : nm = nameSymtab
      · rw [if_pos h1] at h
        cases hss : p.symbol_section_header with
        | some x => rw [hss] at h; cases h
        | none =>
          rw [hss] at h
          dsimp only at h
          simpa using ih _ _ h
      · rw [if_neg h1] at h
        by_cases h2 : nm = nameStrtab
        · rw [if_pos h2] at h
          cases hss : p.symbol_names_section_header with
          | some x => rw [hss] at h; cases h
          | none =>
            rw [hss] at h
            dsimp only at h
            simpa using ih _ _ h
        · rw [if_neg h2] at h
          by_cases h3 : nm = nameDynstr
          · rw [if_pos h3] at h
            cases hss : p.dynamic_symbol_names_section_header with
            | some x => rw [hss] at h; cases h
            | none =>
              rw [hss] at h
              dsimp only at h
              simpa using ih _ _ h
          · rw [if_neg h3] at h
            exact ih _ _ h

theorem parse_sections_fields {p q : Elf64} (h : parse_sections p = .ok q) :
    q.file_header = p.file_header
    ∧ q.program_header_table = p.program_header_table
    ∧ q.section_header_table = p.section_header_table
    ∧ q.elf_bytes = p.elf_bytes
    ∧ q.base_addr = p.base_addr
    ∧ q.dynamic_table = p.dynamic_table
    ∧ q.dynamic_relocations_table = p.dynamic_relocations_table
    ∧ q.dynamic_symbol_table = p.dynamic_symbol_table := by
  rw [parse_sections] at h
  cases hsn : p.section_names_section_header with
  | none => rw [hsn] at h; cases h
  | some snsh =>
    rw [hsn] at h
    dsimp only at h
    exact parseSectionsLoop_fields p.elf_bytes snsh p.section_header_table p q h

theorem parse_dynamic_fields {p q : Elf64} (h : parse_dynamic p = .ok q) :
    q.file_header = p.file_header
    ∧ q.program_header_table = p.program_header_table
    ∧ q.section_header_table = p.section_header_table
    ∧ q.elf_bytes = p.elf_bytes := by
  rw [parse_dynamic] at h
  cases ht : dynTableCandidate p with
  | error e => rw [ht] at h; cases h
  | ok cand =>
    rw [ht] at h
    cases cand with
    | none =>
      cases h
      exact ⟨rfl, rfl, rfl, rfl⟩
    | some entries =>
      dsimp only at h
      cases hrel : parse_dynamic_relocations
          { p with dynamic_table := absorbDynEntries p.dynamic_table entries } with
      | error e => rw [hrel] at h; cases h
      | ok rel =>
        rw [hrel] at h
        dsimp only at h
        cases hsym : parse_dynamic_symbol_table
            { p with dynamic_table := absorbDynEntries p.dynamic_table entries
                     dynamic_relocations_table := rel } with
        | error e => rw [hsym] at h; cases h
        | ok sym =>
          rw [hsym] at h
          dsimp only at h
          cases h
          exact ⟨rfl, rfl, rfl, rfl⟩

/-- Successful-parse inversion: a successful `parse` pins the intermediate
tables, the success of both sweeps (with the header-table ranges computed
from the parsed file header), and the final `parse_sections` /
`parse_dynamic` stages. -/
theorem parse_ok_elim {base : Nat} {bytes : List Nat} {v : Elf64}
    (h : parse base bytes = .ok v) :
    ∃ (pht : List Elf64Phdr) (sht : List Elf64Shdr) (p1 : Elf64),
      loadSweep bytes.length 0 pht = .ok ()
      ∧ sectionSweep ⟨0, 64⟩
          ⟨v.file_header.e_phoff,
            56 * v.file_header.e_phnum + v.file_header.e_phoff⟩
          ⟨v.file_header.e_shoff,
            64 * v.file_header.e_shnum + v.file_header.e_shoff⟩
          bytes.length 0 sht = .ok ()
      ∧ parse_dynamic p1 = .ok v
      ∧ p1.dynamic_relocations_table = none
      ∧ p1.dynamic_symbol_table = none
      ∧ p1.program_header_table = pht
      ∧ p1.section_header_table = sht
      ∧ v.program_header_table = pht
      ∧ v.section_header_table = sht := by
  rw [parse] at h
  cases h1 : parse_file_header base bytes with
  | error e => rw [h1] at h; cases h
  | ok pr =>
    obtain ⟨fhr, fh⟩ := pr
    rw [h1] at h
    dsimp only at h
    split at h
    · cases h
    · cases h2 : parse_program_header_table base bytes fhr fh with
      | error e => rw [h2] at h; cases h
      | ok pr2 =>
        obtain ⟨phr, pht⟩ := pr2
        rw [h2] at h
        dsimp only at h
        cases h3 : parse_section_header_table base bytes fhr fh phr with
        | error e => rw [h3] at h; cases h
        | ok pr3 =>
          obtain ⟨shr, sht⟩ := pr3
          rw [h3] at h
          dsimp only at h
          cases h4 : sht.head? with
          | none => rw [h4] at h; cases h
          | some sh0 =>
            rw [h4] at h
            dsimp only at h
            split at h
            · cases h
            · cases h5 : loadSweep bytes.length 0 pht with
              | error e => rw [h5] at h; cases h
              | ok u5 =>
                rw [h5] at h
                dsimp only at h
                cases h6 : sectionSweep fhr phr shr bytes.length 0 sht with
                | error e => rw [h6] at h; cases h
                | ok u6 =>
                  rw [h6] at h
                  dsimp only at h
                  cases h7 : sectionNamesHeader fh sht with
                  | error e => rw [h7] at h; cases h
                  | ok snsh =>
                    rw [h7] at h
                    dsimp only at h
                    cases h8 : parse_sections (initView base bytes fh pht sht snsh) with
                    | error e => rw [h8] at h; cases h
                    | ok p1 =>
                      rw [h8] at h
                      dsimp only at h
                      obtain ⟨q1, q2, q3, q4, q5, q6, q7, q8⟩ :=
                        parse_sections_fields h8
                      obtain ⟨w1, w2, w3, w4⟩ := parse_dynamic_fields h
                      have hfh : v.file_header = fh := by
                        rw [w1, q1]; rfl
                      have hpht : v.program_header_table = pht := by
                        rw [w2, q2]; rfl
                      have hsht : v.section_header_table = sht := by
                        rw [w3, q3]; rfl
                      have hfhr : fhr = ⟨0, 64⟩ := parse_file_header_ok h1
                      have hphr : phr = ⟨fh.e_phoff, 56 * fh.e_phnum + fh.e_phoff⟩ :=
                        parse_program_header_table_ok h2
                      have hshr : shr = ⟨fh.e_shoff, 64 * fh.e_shnum + fh.e_shoff⟩ :=
                        parse_section_header_table_ok h3
                      cases u5
                      cases u6
                      refine ⟨pht, sht, p1, h5, ?_, h, q7, q8, q2, q3, hpht, hsht⟩
                      rw [hfh]
                      rw [← hfhr, ← hphr, ← hshr]
                      exact h6

/-! ### Claim C1 -/

/-- Claim C1 is false on the code: the spec's minimal valid ELF (valid
identification, `e_phnum = 0`, `e_shnum = 1`, one `SHT_NULL` section,
`e_shstrndx = 0`) does not parse successfully, because with
`e_shstrndx = SHN_UNDEF` no section-name string table is recorded and
`parse_sections` fails. -/
theorem claim1_counterexample : ¬ ∃ v, parse 0 c1Bytes = Except.ok v := by
  intro hex
  rcases hex with ⟨v, hv⟩
  have h : parse 0 c1Bytes =
      Except.error ElfParserError.NoSectionNameStringTable := by decide
  rw [h] at hv
  exact Except.noConfusion hv

/-- Claim C1 (amended): for the byte buffer containing exactly an
`Elf64Ehdr` with valid identification, `e_phnum = 0`, `e_shnum = 1`, a
single `SHT_NULL` section header and `e_shstrndx = 0`, parse fails with
`NoSectionNameStringTable` (no view is produced). -/
theorem claim1_amended :
    parse 0 c1Bytes = Except.error ElfParserError.NoSectionNameStringTable := by
  decide

/-! ### Claim C2 -/

theorem program_header_for_vaddr_eq (pht : List Elf64Phdr) (vaddr : Nat)
    (h : ∀ ph ∈ pht, ph.p_vaddr + ph.p_memsz < U64MOD) :
    program_header_for_vaddr pht vaddr =
      .ok (pht.find? (fun ph =>
        decide (ph.p_vaddr ≤ vaddr ∧ vaddr < ph.p_vaddr + ph.p_memsz))) := by
  induction pht with
  | nil => rfl
  | cons ph rest ih =>
    have hph : ph.p_vaddr + ph.p_memsz < U64MOD := h ph (List.mem_cons_self _ _)
    have hrest : ∀ q ∈ rest, q.p_vaddr + q.p_memsz < U64MOD :=
      fun q hq => h q (List.mem_cons_of_mem _ hq)
    simp only [program_header_for_vaddr]
    rw [errCheckedAdd, if_pos hph]
    dsimp only
    by_cases hc : ph.p_vaddr ≤ vaddr ∧ vaddr < ph.p_vaddr + ph.p_memsz
    · rw [if_pos hc, List.find?_cons_of_pos _ (by simpa using hc)]
    · rw [if_neg hc, List.find?_cons_of_neg _ (by simpa using hc), ih hrest]

/-- The resolution rule of the amended claim C2: the vaddr of `DT_REL` is
resolved through the first program header of ANY type whose vm range
contains it (`vaddr - p_vaddr + p_offset`), else through the first section
header whose `sh_addr` equals it (`sh_offset`), else the parse fails with
`InvalidDynamicSectionTable`. -/
def specResolveRelVaddr (pht : List Elf64Phdr) (sht : List Elf64Shdr)
    (vaddr : Nat) : Except ElfParserError Nat :=
  match pht.find? (fun ph =>
      decide (ph.p_vaddr ≤ vaddr ∧ vaddr < ph.p_vaddr + ph.p_memsz)) with
  | some ph => .ok (vaddr - ph.p_vaddr + ph.p_offset)
  | none =>
    match sht.find? (fun sh => sh.sh_addr == vaddr) with
    | some sh => .ok sh.sh_offset
    | none => .error .InvalidDynamicSectionTable

/-- A concrete parser state whose only program header is `PT_DYNAMIC` (not
`PT_LOAD`) and contains the `DT_REL` vaddr, with no section headers. -/
def c2Elf : Elf64 :=
  { base_addr := 0
    elf_bytes := List.replicate 32 0
    file_header := decodeEhdr []
    program_header_table :=
      [{ p_type := PT_DYNAMIC, p_flags := 0, p_offset := 16, p_vaddr := 4096,
         p_paddr := 0, p_filesz := 16, p_memsz := 16, p_align := 0 }]
    section_header_table := []
    section_names_section_header := none
    symbol_section_header := none
    symbol_names_section_header := none
    dynamic_table :=
      (((List.replicate DT_NUM 0).set DT_REL 4096).set DT_RELENT 16).set
        DT_RELSZ 16
    dynamic_relocations_table := none
    dynamic_symbol_table := none
    dynamic_symbol_names_section_header := none }

/-- Claim C2 is false on the code at `c2Elf`: no `PT_LOAD` segment exists
and no section header has `sh_addr` equal to the `DT_REL` vaddr, so the
claim requires `InvalidDynamicSectionTable`; yet the code resolves the
vaddr through the `PT_DYNAMIC` program header (`program_header_for_vaddr`
ignores `p_type`) and succeeds. -/
theorem claim2_counterexample :
    c2Elf.program_header_table.all (fun ph => ph.p_type != PT_LOAD) = true
    ∧ c2Elf.section_header_table = []
    ∧ c2Elf.dynamic_table.getD DT_REL 0 = 4096
    ∧ parse_dynamic_relocations c2Elf =
        .ok (some [{ r_offset := 0, r_info := 0 }]) := by
  refine ⟨by decide, rfl, by decide, by decide⟩

/-- Claim C2 (amended): with `DT_REL` non-zero, `DT_RELENT = 16` and
`DT_RELSZ` non-zero (and the checked vm-range arithmetic in bounds), the
vaddr is resolved through the first program header of ANY type whose vm
range contains it, computing `vaddr - p_vaddr + p_offset`; if none matches,
through the first section header whose `sh_addr` equals the vaddr, using
its `sh_offset`; and if neither resolves, the parse fails with
`InvalidDynamicSectionTable`. -/
theorem claim2_amended (p : Elf64)
    (hvaddr : p.dynamic_table.getD DT_REL 0 ≠ 0)
    (hent : p.dynamic_table.getD DT_RELENT 0 = 16)
    (hsz : p.dynamic_table.getD DT_RELSZ 0 ≠ 0)
    (hovf1 : ∀ ph ∈ p.program_header_table,
      ph.p_vaddr + ph.p_memsz < U64MOD)
    (hovf2 : ∀ ph ∈ p.program_header_table,
      ph.p_offset + ph.p_memsz < U64MOD) :
    parse_dynamic_relocations p =
      (match specResolveRelVaddr p.program_header_table
          p.section_header_table (p.dynamic_table.getD DT_REL 0) with
       | .error e => .error e
       | .ok off =>
         match errCheckedAdd off (p.dynamic_table.getD DT_RELSZ 0) with
         | .error e => .error e
         | .ok e2 =>
           match sliceRels p.base_addr p.elf_bytes ⟨off, e2⟩ with
           | .ok t => .ok (some t)
           | .error _ => .error .InvalidDynamicSectionTable) := by
  rw [parse_dynamic_relocations]
  dsimp only
  rw [if_neg hvaddr, if_neg (not_not_intro hent), if_neg hsz,
    program_header_for_vaddr_eq p.program_header_table _ hovf1]
  dsimp only
  rw [specResolveRelVaddr]
  cases hf : p.program_header_table.find? (fun ph =>
      decide (ph.p_vaddr ≤ p.dynamic_table.getD DT_REL 0 ∧
        p.dynamic_table.getD DT_REL 0 < ph.p_vaddr + ph.p_memsz)) with
  | some ph =>
    have hmem : ph ∈ p.program_header_table := List.mem_of_find?_eq_some hf
    have hpred := List.find?_some hf
    have hc : ph.p_vaddr ≤ p.dynamic_table.getD DT_REL 0 ∧
        p.dynamic_table.getD DT_REL 0 < ph.p_vaddr + ph.p_memsz := by
      simpa using hpred
    dsimp only
    rw [errCheckedSub, if_pos hc.1]
    dsimp only
    rw [errCheckedAdd, if_pos (by have := hovf2 ph hmem; omega)]
  | none =>
    cases hs : p.section_header_table.find? (fun sh =>
        sh.sh_addr == p.dynamic_table.getD DT_REL 0) <;> rfl

/-- Witness for the amended claim C2 at the concrete state `c2Elf`: the
spec-side resolver yields offset 16 through the `PT_DYNAMIC` header, and
`parse_dynamic_relocations` returns the matching relocation slice. -/
theorem claim2_witness :
    specResolveRelVaddr c2Elf.program_header_table c2Elf.section_header_table
      (c2Elf.dynamic_table.getD DT_REL 0) = .ok 16
    ∧ parse_dynamic_relocations c2Elf =
        .ok (some [{ r_offset := 0, r_info := 0 }]) := by
  have h := claim2_amended c2Elf (by decide) (by decide) (by decide)
    (by decide) (by decide)
  exact ⟨by decide, by rw [h]; decide⟩

/-! ### Claim C3 -/

/-- Claim C3: for every byte buffer, range and record type (any record size
`sz > 0` and alignment `al > 0`), `slice_from_bytes` succeeds iff the range
lies within the buffer, its length is divisible by the record size, and the
start address is aligned; each failed check yields the corresponding error
in check order (`InvalidSize`, then `OutOfBounds`, then `InvalidAlignment`),
and on success the slice has `range.len() / sz` records. -/
theorem claim3_slice_from_bytes (sz al base : Nat) (bytes : List Nat)
    (r : RangeN) (hsz : 0 < sz) (hal : 0 < al) :
    ((∃ out, slice_from_bytes sz al base bytes r = .ok out) ↔
      (r.start ≤ r.stop ∧ r.stop ≤ bytes.length ∧ r.len % sz = 0 ∧
        (base + r.start) % al = 0))
    ∧ (slice_from_bytes sz al base bytes r = .error .InvalidSize ↔
        r.len % sz ≠ 0)
    ∧ (slice_from_bytes sz al base bytes r = .error .OutOfBounds ↔
        (r.len % sz = 0 ∧ ¬(r.start ≤ r.stop ∧ r.stop ≤ bytes.length)))
    ∧ (slice_from_bytes sz al base bytes r = .error .InvalidAlignment ↔
        (r.len % sz = 0 ∧ r.start ≤ r.stop ∧ r.stop ≤ bytes.length ∧
          (base + r.start) % al ≠ 0))
    ∧ (∀ out, slice_from_bytes sz al base bytes r = .ok out →
        out.length = r.len / sz) := by
  have hsz' : ¬ sz = 0 := Nat.pos_iff_ne_zero.mp hsz
  have hal' : ¬ al = 0 := Nat.pos_iff_ne_zero.mp hal
  by_cases h1 : r.len % sz = 0
  · by_cases h2 : r.start ≤ r.stop ∧ r.stop ≤ bytes.length
    · by_cases h3 : (base + r.start) % al = 0
      · simp [slice_from_bytes, getRange, hsz', hal', h1, h2, h3,
          chunksN_length]
      · simp [slice_from_bytes, getRange, hsz', hal', h1, h2, h3]
    · simp only [slice_from_bytes, getRange, hsz', h1]
      simp [h2]
      tauto
  · simp [slice_from_bytes, hsz', h1]

/-- Witness for claim C3 at concrete inputs: a 16-byte buffer sliced as two
8-byte records, and an indivisible 15-byte range rejected as
`InvalidSize`. -/
theorem claim3_witness :
    (∃ out, slice_from_bytes 8 8 0 (List.replicate 16 7) ⟨0, 16⟩ = .ok out)
    ∧ slice_from_bytes 8 8 0 (List.replicate 16 7) ⟨0, 15⟩ =
        .error .InvalidSize := by
  refine ⟨?_, ?_⟩
  · exact (claim3_slice_from_bytes 8 8 0 (List.replicate 16 7) ⟨0, 16⟩
      (by decide) (by decide)).1.mpr (by decide)
  · exact (claim3_slice_from_bytes 8 8 0 (List.replicate 16 7) ⟨0, 15⟩
      (by decide) (by decide)).2.1.mpr (by decide)

/-! ### Claim C6 -/

/-- Claim C6: `get_string_in_section` rejects a non-`SHT_STRTAB` header with
`InvalidSectionHeader`; for an `SHT_STRTAB` header (with the checked window
arithmetic in range and the window inside the buffer) it searches the window
from `sh_offset + offset` to `min (sh_offset + sh_size)
(sh_offset + offset + max_len)`, returns the bytes preceding the first zero
byte, and returns `StringTooLong` carrying the window content and the
maximum length when the window holds no zero byte. -/
theorem claim6_get_string (bytes : List Nat) (sh : Elf64Shdr)
    (off maxLen : Nat) :
    (sh.sh_type ≠ SHT_STRTAB →
      get_string_in_section bytes sh off maxLen =
        .error .InvalidSectionHeader)
    ∧ (sh.sh_type = SHT_STRTAB →
       sh.sh_offset + off < U64MOD →
       sh.sh_offset + sh.sh_size < U64MOD →
       sh.sh_offset + off + maxLen < U64MOD →
       off ≤ sh.sh_size →
       min (sh.sh_offset + sh.sh_size) (sh.sh_offset + off + maxLen) ≤
         bytes.length →
       get_string_in_section bytes sh off maxLen =
         (let w := (bytes.drop (sh.sh_offset + off)).take
            (min (sh.sh_offset + sh.sh_size) (sh.sh_offset + off + maxLen)
              - (sh.sh_offset + off))
          if 0 ∈ w then .ok (w.takeWhile (fun b => b != 0))
          else .error (.StringTooLong w maxLen))) := by
  constructor
  · intro hty
    simp [get_string_in_section, hty]
  · intro hty hb1 hb2 hb3 hoff hlen
    have hstart : sh.sh_offset + off ≤
        min (sh.sh_offset + sh.sh_size) (sh.sh_offset + off + maxLen) := by
      refine le_min ?_ ?_ <;> omega
    simp only [get_string_in_section, hty, ne_eq, not_true_eq_false,
      if_false, errCheckedAdd, if_pos hb1, if_pos hb2, if_pos hb3,
      getRange, RangeN.len]
    rw [if_pos ⟨hstart, hlen⟩]
    set w := (bytes.drop (sh.sh_offset + off)).take
      (min (sh.sh_offset + sh.sh_size) (sh.sh_offset + off + maxLen)
        - (sh.sh_offset + off)) with hw
    by_cases hz : 0 ∈ w
    · have hne : ¬ firstZeroPos w = none := by
        rw [firstZeroPos_none_iff]
        simp [hz]
      obtain ⟨k, hk⟩ := Option.ne_none_iff_exists'.mp hne
      obtain ⟨hk1, hk2⟩ := firstZeroPos_some w k hk
      simp [hk, hk1, hk2, hz]
    · have hnone : firstZeroPos w = none := (firstZeroPos_none_iff w).mpr hz
      simp [hnone, hz]

/-- Witness for claim C6: a concrete string table `[104, 105, 0, 7, 8]`
yields the two bytes before the zero; a non-string-table header is
rejected. -/
theorem claim6_witness :
    get_string_in_section [104, 105, 0, 7, 8]
      (decodeShdr (shdrBytes 0 SHT_STRTAB 0 5)) 0 16 = .ok [104, 105]
    ∧ get_string_in_section [104, 105, 0, 7, 8]
      (decodeShdr (shdrBytes 0 1 0 5)) 0 16 =
        .error .InvalidSectionHeader := by
  constructor
  · have h := (claim6_get_string [104, 105, 0, 7, 8]
      (decodeShdr (shdrBytes 0 SHT_STRTAB 0 5)) 0 16).2
      (by decide) (by decide) (by decide) (by decide) (by decide) (by decide)
    rw [h]
    decide
  · exact (claim6_get_string [104, 105, 0, 7, 8]
      (decodeShdr (shdrBytes 0 1 0 5)) 0 16).1 (by decide)

/-! ### Claims C4 and C5: the parse sweeps -/

/-- The filter predicate of the `PT_LOAD` sweep. -/
def isLoadPhdr (ph : Elf64Phdr) : Bool := ph.p_type == PT_LOAD

/-- Spec-side: `p_vaddr` monotonically non-decreasing along the list,
starting from `v0` (the sweep starts from 0). -/
def monotoneFrom : Nat → List Elf64Phdr → Prop
  | _, [] => True
  | v0, ph :: rest => v0 ≤ ph.p_vaddr ∧ monotoneFrom ph.p_vaddr rest

def monotoneFromDec : (v0 : Nat) → (l : List Elf64Phdr) →
    Decidable (monotoneFrom v0 l)
  | _, [] => .isTrue trivial
  | v0, ph :: rest =>
    match monotoneFromDec ph.p_vaddr rest with
    | .isTrue h =>
      if hv : v0 ≤ ph.p_vaddr then .isTrue ⟨hv, h⟩
      else .isFalse (fun hc => hv hc.1)
    | .isFalse h => .isFalse (fun hc => h hc.2)

instance (v0 : Nat) (l : List Elf64Phdr) : Decidable (monotoneFrom v0 l) :=
  monotoneFromDec v0 l

/-- Spec-side: the checked sum `p_offset + p_filesz` stays below `2 ^ 64`
and does not exceed the buffer length. -/
def loadBoundsOk (len : Nat) (ph : Elf64Phdr) : Prop :=
  ph.p_offset + ph.p_filesz < U64MOD ∧ ph.p_offset + ph.p_filesz ≤ len

instance (len : Nat) (ph : Elf64Phdr) : Decidable (loadBoundsOk len ph) := by
  unfold loadBoundsOk
  infer_instance

theorem loadSweep_ok (len : Nat) : ∀ (l : List Elf64Phdr) (v0 : Nat),
    loadSweep len v0 l = .ok () →
    monotoneFrom v0 (l.filter isLoadPhdr)
    ∧ ∀ ph ∈ l.filter isLoadPhdr, loadBoundsOk len ph := by
  intro l
  induction l with
  | nil => intro v0 h; exact ⟨trivial, by simp⟩
  | cons ph rest ih =>
    intro v0 h
    simp only [loadSweep] at h
    by_cases ht : ph.p_type ≠ PT_LOAD
    · rw [if_pos ht] at h
      have hfil : (ph :: rest).filter isLoadPhdr = rest.filter isLoadPhdr := by
        simp [List.filter_cons, isLoadPhdr, ht]
      rw [hfil]
      exact ih v0 h
    · rw [if_neg ht] at h
      have hteq : ph.p_type = PT_LOAD := not_not.mp ht
      by_cases hv : ph.p_vaddr < v0
      · rw [if_pos hv] at h; cases h
      · rw [if_neg hv] at h
        cases hadd : errCheckedAdd ph.p_offset ph.p_filesz with
        | error e => rw [hadd] at h; cases h
        | ok s =>
          rw [hadd] at h
          dsimp only at h
          obtain ⟨rfl, hlt⟩ := errCheckedAdd_ok hadd
          by_cases hbig : ph.p_offset + ph.p_filesz > len
          · rw [if_pos hbig] at h; cases h
          · rw [if_neg hbig] at h
            obtain ⟨hm, hb⟩ := ih ph.p_vaddr h
            have hfil : (ph :: rest).filter isLoadPhdr =
                ph :: rest.filter isLoadPhdr := by
              simp [List.filter_cons, isLoadPhdr, hteq]
            rw [hfil]
            refine ⟨⟨Nat.le_of_not_lt hv, hm⟩, ?_⟩
            intro q hq
            rcases List.mem_cons.mp hq with rfl | hq'
            · exact ⟨hlt, Nat.le_of_not_lt hbig⟩
            · exact hb q hq'

theorem loadSweep_monotone_err (len : Nat) : ∀ (l : List Elf64Phdr) (v0 : Nat),
    (∀ ph ∈ l.filter isLoadPhdr, loadBoundsOk len ph) →
    ¬ monotoneFrom v0 (l.filter isLoadPhdr) →
    loadSweep len v0 l = .error .InvalidProgramHeader := by
  intro l
  induction l with
  | nil => intro v0 hb hm; exact absurd trivial hm
  | cons ph rest ih =>
    intro v0 hb hm
    simp only [loadSweep]
    by_cases ht : ph.p_type ≠ PT_LOAD
    · rw [if_pos ht]
      have hfil : (ph :: rest).filter isLoadPhdr = rest.filter isLoadPhdr := by
        simp [List.filter_cons, isLoadPhdr, ht]
      rw [hfil] at hb hm
      exact ih v0 hb hm
    · rw [if_neg ht]
      have hteq : ph.p_type = PT_LOAD := not_not.mp ht
      have hfil : (ph :: rest).filter isLoadPhdr =
          ph :: rest.filter isLoadPhdr := by
        simp [List.filter_cons, isLoadPhdr, hteq]
      rw [hfil] at hb hm
      by_cases hv : ph.p_vaddr < v0
      · rw [if_pos hv]
      · rw [if_neg hv]
        have hbph := hb ph (List.mem_cons_self _ _)
        rw [errCheckedAdd, if_pos hbph.1]
        dsimp only
        rw [if_neg (Nat.not_lt.mpr hbph.2)]
        refine ih ph.p_vaddr (fun q hq => hb q (List.mem_cons_of_mem _ hq)) ?_
        intro hc
        exact hm ⟨Nat.le_of_not_lt hv, hc⟩

theorem loadSweep_bounds_err (len : Nat) : ∀ (l : List Elf64Phdr) (v0 : Nat),
    monotoneFrom v0 (l.filter isLoadPhdr) →
    (∃ ph ∈ l.filter isLoadPhdr, ¬ loadBoundsOk len ph) →
    loadSweep len v0 l = .error .OutOfBounds := by
  intro l
  induction l with
  | nil => intro v0 hm hex; simp at hex
  | cons ph rest ih =>
    intro v0 hm hex
    simp only [loadSweep]
    by_cases ht : ph.p_type ≠ PT_LOAD
    · rw [if_pos ht]
      have hfil : (ph :: rest).filter isLoadPhdr = rest.filter isLoadPhdr := by
        simp [List.filter_cons, isLoadPhdr, ht]
      rw [hfil] at hm hex
      exact ih v0 hm hex
    · rw [if_neg ht]
      have hteq : ph.p_type = PT_LOAD := not_not.mp ht
      have hfil : (ph :: rest).filter isLoadPhdr =
          ph :: rest.filter isLoadPhdr := by
        simp [List.filter_cons, isLoadPhdr, hteq]
      rw [hfil] at hm hex
      rw [if_neg (Nat.not_lt.mpr hm.1)]
      by_cases hvio : loadBoundsOk len ph
      · rw [errCheckedAdd, if_pos hvio.1]
        dsimp only
        rw [if_neg (Nat.not_lt.mpr hvio.2)]
        obtain ⟨q, hq, hqv⟩ := hex
        rcases List.mem_cons.mp hq with rfl | hq'
        · exact absurd hvio hqv
        · exact ih ph.p_vaddr hm.2 ⟨q, hq', hqv⟩
      · rw [loadBoundsOk, not_and_or] at hvio
        rcases hvio with hvio | hvio
        · rw [errCheckedAdd, if_neg hvio]
        · by_cases hmod : ph.p_offset + ph.p_filesz < U64MOD
          · rw [errCheckedAdd, if_pos hmod]
            dsimp only
            rw [if_pos (Nat.lt_of_not_le hvio)]
          · rw [errCheckedAdd, if_neg hmod]

theorem loadSweep_filter (len : Nat) : ∀ (l : List Elf64Phdr) (v0 : Nat),
    loadSweep len v0 l = loadSweep len v0 (l.filter isLoadPhdr) := by
  intro l
  induction l with
  | nil => intro v0; rfl
  | cons ph rest ih =>
    intro v0
    by_cases ht : ph.p_type ≠ PT_LOAD
    · have hfil : (ph :: rest).filter isLoadPhdr = rest.filter isLoadPhdr := by
        simp [List.filter_cons, isLoadPhdr, ht]
      rw [hfil, ← ih v0]
      simp only [loadSweep]
      rw [if_pos ht]
    · have hteq : ph.p_type = PT_LOAD := not_not.mp ht
      have hfil : (ph :: rest).filter isLoadPhdr =
          ph :: rest.filter isLoadPhdr := by
        simp [List.filter_cons, isLoadPhdr, hteq]
      rw [hfil]
      simp only [loadSweep]
      rw [if_neg ht, if_neg ht]
      by_cases hv : ph.p_vaddr < v0
      · rw [if_pos hv, if_pos hv]
      · rw [if_neg hv, if_neg hv]
        cases hadd : errCheckedAdd ph.p_offset ph.p_filesz with
        | error e => rfl
        | ok s =>
          dsimp only
          by_cases hbig : s > len
          · rw [if_pos hbig, if_pos hbig]
          · rw [if_neg hbig, if_neg hbig]
            exact ih ph.p_vaddr

/-- Claim C5: during parse, each `PT_LOAD` program header in header order
must have monotonically non-decreasing `p_vaddr` (a decrease raises
`InvalidProgramHeader`) and checked `p_offset + p_filesz` not exceeding the
buffer length (a violation raises `OutOfBounds`); headers of other types
are skipped by the sweep. -/
theorem claim5_load_sweep :
    (∀ (base : Nat) (bytes : List Nat) (v : Elf64), parse base bytes = .ok v →
      monotoneFrom 0 (v.program_header_table.filter isLoadPhdr)
      ∧ ∀ ph ∈ v.program_header_table.filter isLoadPhdr,
          ph.p_offset + ph.p_filesz < U64MOD
          ∧ ph.p_offset + ph.p_filesz ≤ bytes.length)
    ∧ (∀ (len : Nat) (l : List Elf64Phdr) (v0 : Nat),
        (∀ ph ∈ l.filter isLoadPhdr, loadBoundsOk len ph) →
        ¬ monotoneFrom v0 (l.filter isLoadPhdr) →
        loadSweep len v0 l = .error .InvalidProgramHeader)
    ∧ (∀ (len : Nat) (l : List Elf64Phdr) (v0 : Nat),
        monotoneFrom v0 (l.filter isLoadPhdr) →
        (∃ ph ∈ l.filter isLoadPhdr, ¬ loadBoundsOk len ph) →
        loadSweep len v0 l = .error .OutOfBounds)
    ∧ (∀ (len : Nat) (l : List Elf64Phdr) (v0 : Nat),
        loadSweep len v0 l = loadSweep len v0 (l.filter isLoadPhdr)) := by
  refine ⟨?_, loadSweep_monotone_err, loadSweep_bounds_err,
    fun len l v0 => loadSweep_filter len l v0⟩
  intro base bytes v hparse
  obtain ⟨pht, sht, p1, hload, -, -, -, -, -, -, hvp, -⟩ := parse_ok_elim hparse
  rw [hvp]
  exact loadSweep_ok bytes.length pht 0 hload

/-- A `PT_LOAD` header with the given vaddr, offset and file size. -/
def mkLoad (vaddr offset filesz : Nat) : Elf64Phdr :=
  { p_type := PT_LOAD, p_flags := 0, p_offset := offset, p_vaddr := vaddr,
    p_paddr := 0, p_filesz := filesz, p_memsz := 0, p_align := 0 }

/-- Witness for claim C5: the c10 buffer's parse satisfies the sweep
invariant; two `PT_LOAD` headers with decreasing vaddrs raise
`InvalidProgramHeader`; a `PT_LOAD` whose file range exceeds the buffer
raises `OutOfBounds`. -/
theorem claim5_witness :
    (monotoneFrom 0 (c10View.program_header_table.filter isLoadPhdr)
      ∧ ∀ ph ∈ c10View.program_header_table.filter isLoadPhdr,
          ph.p_offset + ph.p_filesz < U64MOD
          ∧ ph.p_offset + ph.p_filesz ≤ c10Bytes.length)
    ∧ loadSweep 10 0 [mkLoad 4096 0 0, mkLoad 1280 0 0] =
        .error .InvalidProgramHeader
    ∧ loadSweep 10 0 [mkLoad 4096 100 100] = .error .OutOfBounds := by
  refine ⟨claim5_load_sweep.1 0 c10Bytes c10View (by decide), ?_, ?_⟩
  · exact claim5_load_sweep.2.1 10 [mkLoad 4096 0 0, mkLoad 1280 0 0] 0
      (by decide) (by decide)
  · exact claim5_load_sweep.2.2.1 10 [mkLoad 4096 100 100] 0
      (by decide) (by decide)

/-- Spec-side: the non-`SHT_NOBITS` sections, in header order. -/
def nonNobits (l : List Elf64Shdr) : List Elf64Shdr :=
  l.filter (fun sh => sh.sh_type != SHT_NOBITS)

/-- Spec-side: two ranges do not overlap (the condition of
`check_that_there_is_no_overlap`). -/
def rangesDisjoint (a b : RangeN) : Prop := a.stop ≤ b.start ∨ b.stop ≤ a.start

instance (a b : RangeN) : Decidable (rangesDisjoint a b) := by
  unfold rangesDisjoint
  infer_instance

/-- Spec-side: the per-section checks of the section sweep: checked file
range `[sh_offset, sh_offset + sh_size)`, disjoint from the three header
ranges, and ending at or before the buffer length. -/
def sectionOk (fhr phr shr : RangeN) (len : Nat) (sh : Elf64Shdr) : Prop :=
  sh.sh_offset + sh.sh_size < U64MOD
  ∧ rangesDisjoint ⟨sh.sh_offset, sh.sh_offset + sh.sh_size⟩ fhr
  ∧ rangesDisjoint ⟨sh.sh_offset, sh.sh_offset + sh.sh_size⟩ phr
  ∧ rangesDisjoint ⟨sh.sh_offset, sh.sh_offset + sh.sh_size⟩ shr
  ∧ sh.sh_offset + sh.sh_size ≤ len

instance (fhr phr shr : RangeN) (len : Nat) (sh : Elf64Shdr) :
    Decidable (sectionOk fhr phr shr len sh) := by
  unfold sectionOk
  infer_instance

/-- Spec-side: each section file range starts at or beyond the previous
section range's end, beginning from `off` (the sweep starts from 0). -/
def chainFrom : Nat → List Elf64Shdr → Prop
  | _, [] => True
  | off, sh :: rest =>
    off ≤ sh.sh_offset ∧ chainFrom (sh.sh_offset + sh.sh_size) rest

def chainFromDec : (off : Nat) → (l : List Elf64Shdr) →
    Decidable (chainFrom off l)
  | _, [] => .isTrue trivial
  | off, sh :: rest =>
    match chainFromDec (sh.sh_offset + sh.sh_size) rest with
    | .isTrue h =>
      if hv : off ≤ sh.sh_offset then .isTrue ⟨hv, h⟩
      else .isFalse (fun hc => hv hc.1)
    | .isFalse h => .isFalse (fun hc => h hc.2)

instance (off : Nat) (l : List Elf64Shdr) : Decidable (chainFrom off l) :=
  chainFromDec off l

theorem check_overlap_ok {a b : RangeN} (h : rangesDisjoint a b) :
    check_that_there_is_no_overlap a b = .ok () := by
  unfold rangesDisjoint at h
  rw [check_that_there_is_no_overlap, if_pos h]

theorem check_overlap_ok_inv {a b : RangeN} {u : Unit}
    (h : check_that_there_is_no_overlap a b = .ok u) : rangesDisjoint a b := by
  by_cases hd : a.stop ≤ b.start ∨ b.stop ≤ a.start
  · exact hd
  · rw [check_that_there_is_no_overlap, if_neg hd] at h
    cases h

theorem sectionSweep_ok (fhr phr shr : RangeN) (len : Nat) :
    ∀ (l : List Elf64Shdr) (off : Nat),
    sectionSweep fhr phr shr len off l = .ok () →
    (∀ sh ∈ nonNobits l, sectionOk fhr phr shr len sh)
    ∧ chainFrom off (nonNobits l) := by
  intro l
  induction l with
  | nil => intro off h; exact ⟨by simp [nonNobits], trivial⟩
  | cons sh rest ih =>
    intro off h
    simp only [sectionSweep] at h
    by_cases hn : sh.sh_type = SHT_NOBITS
    · rw [if_pos hn] at h
      have hfil : nonNobits (sh :: rest) = nonNobits rest := by
        simp [nonNobits, List.filter_cons, hn]
      rw [hfil]
      exact ih off h
    · rw [if_neg hn] at h
      have hfil : nonNobits (sh :: rest) = sh :: nonNobits rest := by
        simp [nonNobits, List.filter_cons, hn]
      rw [hfil]
      cases hadd : errCheckedAdd sh.sh_offset sh.sh_size with
      | error e => rw [hadd] at h; cases h
      | ok e2 =>
        rw [hadd] at h
        dsimp only at h
        obtain ⟨rfl, hlt⟩ := errCheckedAdd_ok hadd
        cases hc1 : check_that_there_is_no_overlap
            ⟨sh.sh_offset, sh.sh_offset + sh.sh_size⟩ fhr with
        | error e => rw [hc1] at h; cases h
        | ok u1 =>
          rw [hc1] at h
          dsimp only at h
          cases hc2 : check_that_there_is_no_overlap
              ⟨sh.sh_offset, sh.sh_offset + sh.sh_size⟩ phr with
          | error e => rw [hc2] at h; cases h
          | ok u2 =>
            rw [hc2] at h
            dsimp only at h
            cases hc3 : check_that_there_is_no_overlap
                ⟨sh.sh_offset, sh.sh_offset + sh.sh_size⟩ shr with
            | error e => rw [hc3] at h; cases h
            | ok u3 =>
              rw [hc3] at h
              dsimp only at h
              by_cases hso : sh.sh_offset < off
              · rw [if_pos hso] at h; cases h
              · rw [if_neg hso] at h
                by_cases hbig : sh.sh_offset + sh.sh_size > len
                · rw [if_pos hbig] at h; cases h
                · rw [if_neg hbig] at h
                  obtain ⟨hall, hchain⟩ := ih (sh.sh_offset + sh.sh_size) h
                  refine ⟨?_, ⟨Nat.le_of_not_lt hso, hchain⟩⟩
                  intro q hq
                  rcases List.mem_cons.mp hq with rfl | hq'
                  · exact ⟨hlt, check_overlap_ok_inv hc1,
                      check_overlap_ok_inv hc2, check_overlap_ok_inv hc3,
                      Nat.le_of_not_lt hbig⟩
                  · exact hall q hq'

theorem sectionSweep_order_err (fhr phr shr : RangeN) (len : Nat) :
    ∀ (l : List Elf64Shdr) (off : Nat),
    (∀ sh ∈ nonNobits l, sectionOk fhr phr shr len sh) →
    ¬ chainFrom off (nonNobits l) →
    sectionSweep fhr phr shr len off l = .error .SectionNotInOrder := by
  intro l
  induction l with
  | nil => intro off hall hc; exact absurd trivial hc
  | cons sh rest ih =>
    intro off hall hc
    simp only [sectionSweep]
    by_cases hn : sh.sh_type = SHT_NOBITS
    · rw [if_pos hn]
      have hfil : nonNobits (sh :: rest) = nonNobits rest := by
        simp [nonNobits, List.filter_cons, hn]
      rw [hfil] at hall hc
      exact ih off hall hc
    · rw [if_neg hn]
      have hfil : nonNobits (sh :: rest) = sh :: nonNobits rest := by
        simp [nonNobits, List.filter_cons, hn]
      rw [hfil] at hall hc
      have hok := hall sh (List.mem_cons_self _ _)
      rw [errCheckedAdd, if_pos hok.1]
      dsimp only
      rw [check_overlap_ok hok.2.1]
      dsimp only
      rw [check_overlap_ok hok.2.2.1]
      dsimp only
      rw [check_overlap_ok hok.2.2.2.1]
      dsimp only
      by_cases hso : sh.sh_offset < off
      · rw [if_pos hso]
      · rw [if_neg hso]
        rw [if_neg (Nat.not_lt.mpr hok.2.2.2.2)]
        refine ih (sh.sh_offset + sh.sh_size)
          (fun q hq => hall q (List.mem_cons_of_mem _ hq)) ?_
        intro hcc
        exact hc ⟨Nat.le_of_not_lt hso, hcc⟩

/-- Claim C4: in every successfully parsed view, every non-`SHT_NOBITS`
section has a checked file range `[sh_offset, sh_offset + sh_size)` that is
disjoint from the file-header range, the program-header-table range and the
section-header-table range, starts at or beyond the previous section
range's end in header order (a violation raises `SectionNotInOrder`), and
ends at or before the buffer length. -/
theorem claim4_section_sweep :
    (∀ (base : Nat) (bytes : List Nat) (v : Elf64), parse base bytes = .ok v →
      (∀ sh ∈ nonNobits v.section_header_table,
        sectionOk ⟨0, 64⟩
          ⟨v.file_header.e_phoff,
            56 * v.file_header.e_phnum + v.file_header.e_phoff⟩
          ⟨v.file_header.e_shoff,
            64 * v.file_header.e_shnum + v.file_header.e_shoff⟩
          bytes.length sh)
      ∧ chainFrom 0 (nonNobits v.section_header_table))
    ∧ (∀ (fhr phr shr : RangeN) (len : Nat) (l : List Elf64Shdr),
        (∀ sh ∈ nonNobits l, sectionOk fhr phr shr len sh) →
        ¬ chainFrom 0 (nonNobits l) →
        sectionSweep fhr phr shr len 0 l = .error .SectionNotInOrder) := by
  refine ⟨?_, fun fhr phr shr len l => sectionSweep_order_err fhr phr shr len l 0⟩
  intro base bytes v hparse
  obtain ⟨pht, sht, p1, -, hsec, -, -, -, -, -, -, hvs⟩ := parse_ok_elim hparse
  rw [hvs]
  exact sectionSweep_ok _ _ _ bytes.length sht 0 hsec

/-- A non-`SHT_NOBITS` section header with the given file offset and size. -/
def mkSec (offset size : Nat) : Elf64Shdr :=
  { sh_name := 0, sh_type := 1, sh_flags := 0, sh_addr := 0,
    sh_offset := offset, sh_size := size, sh_link := 0, sh_info := 0,
    sh_addralign := 0, sh_entsize := 0 }

/-- Witness for claim C4: the c10 buffer's parse satisfies the section
invariant, and a section list whose second range starts before the first
one's end raises `SectionNotInOrder`. -/
theorem claim4_witness :
    ((∀ sh ∈ nonNobits c10View.section_header_table,
        sectionOk ⟨0, 64⟩
          ⟨c10View.file_header.e_phoff,
            56 * c10View.file_header.e_phnum + c10View.file_header.e_phoff⟩
          ⟨c10View.file_header.e_shoff,
            64 * c10View.file_header.e_shnum + c10View.file_header.e_shoff⟩
          c10Bytes.length sh)
      ∧ chainFrom 0 (nonNobits c10View.section_header_table))
    ∧ sectionSweep ⟨100, 100⟩ ⟨100, 100⟩ ⟨100, 100⟩ 50 0
        [mkSec 10 10, mkSec 0 5] = .error .SectionNotInOrder := by
  refine ⟨claim4_section_sweep.1 0 c10Bytes c10View (by decide), ?_⟩
  exact claim4_section_sweep.2 ⟨100, 100⟩ ⟨100, 100⟩ ⟨100, 100⟩ 50
    [mkSec 10 10, mkSec 0 5] (by decide) (by decide)

/-! ### Claim C7 -/

theorem getD_set_eq : ∀ (l : List Nat) (i : Nat) (a : Nat), i < l.length →
    (l.set i a).getD i 0 = a := by
  intro l
  induction l with
  | nil => intro i a hi; simp at hi
  | cons b t ih =>
    intro i a hi
    cases i with
    | zero => rfl
    | succ j =>
      simp only [List.set_cons_succ, List.getD_cons_succ]
      exact ih j a (by simpa using hi)

theorem getD_set_ne : ∀ (l : List Nat) (i j : Nat) (a : Nat), i ≠ j →
    (l.set i a).getD j 0 = l.getD j 0 := by
  intro l
  induction l with
  | nil => intro i j a hij; simp [List.set_nil]
  | cons b t ih =>
    intro i j a hij
    cases i with
    | zero =>
      cases j with
      | zero => exact absurd rfl hij
      | succ k => rfl
    | succ m =>
      cases j with
      | zero => rfl
      | succ k =>
        simp only [List.set_cons_succ, List.getD_cons_succ]
        exact ih m k a (fun hh => hij (by rw [hh]))

theorem lastElim_cons {α β : Type} (e : α) (fr : List α) (d : β) (f : α → β) :
    ((e :: fr).getLast?.elim d f) = (fr.getLast?.elim (f e) f) := by
  cases fr with
  | nil => rfl
  | cons g gs =>
    rw [List.getLast?_cons_cons]
    cases hl : (g :: gs).getLast? with
    | none => simp [List.getLast?_eq_none_iff] at hl
    | some x => rfl

theorem getD_replicate_zero : ∀ (n i : Nat),
    (List.replicate n (0 : Nat)).getD i 0 = 0 := by
  intro n
  induction n with
  | zero => intro i; rfl
  | succ m ih =>
    intro i
    cases i with
    | zero => rfl
    | succ j => exact ih j

theorem absorbDynEntries_getD (l : List Elf64Dyn) :
    ∀ (tbl : List Nat) (i : Nat), i < DT_NUM → tbl.length = DT_NUM →
    (absorbDynEntries tbl l).getD i 0 =
      ((((l.takeWhile (fun e => e.d_tag != DT_NULL)).filter
        (fun e => tagAsUsize e.d_tag == i)).getLast?).elim (tbl.getD i 0)
        (fun e => e.d_val)) := by
  induction l with
  | nil => intro tbl i hi hlen; rfl
  | cons e rest ih =>
    intro tbl i hi hlen
    by_cases h0 : e.d_tag = DT_NULL
    · simp only [absorbDynEntries]
      rw [if_pos h0]
      simp [List.takeWhile_cons, h0]
    · by_cases hbig : DT_NUM ≤ tagAsUsize e.d_tag
      · simp only [absorbDynEntries]
        rw [if_neg h0, if_pos hbig]
        rw [ih tbl i hi hlen]
        have hne : ¬ tagAsUsize e.d_tag = i := by omega
        simp [List.takeWhile_cons, h0, List.filter_cons, hne]
      · simp only [absorbDynEntries]
        rw [if_neg h0, if_neg hbig]
        have hlen' : (tbl.set (tagAsUsize e.d_tag) e.d_val).length = DT_NUM := by
          simp [hlen]
        rw [ih _ i hi hlen']
        have htw : (e.d_tag != DT_NULL) = true := by simpa using h0
        by_cases heq : tagAsUsize e.d_tag = i
        · have hset : (tbl.set (tagAsUsize e.d_tag) e.d_val).getD i 0 =
              e.d_val := by
            rw [heq]
            exact getD_set_eq tbl i e.d_val (by omega)
          have hfc : (tagAsUsize e.d_tag == i) = true := by simpa using heq
          rw [List.takeWhile_cons, htw, if_pos rfl, List.filter_cons, hfc,
            if_pos rfl, lastElim_cons, hset]
        · have hset : (tbl.set (tagAsUsize e.d_tag) e.d_val).getD i 0 =
              tbl.getD i 0 := getD_set_ne tbl _ i e.d_val heq
          have hfc : (tagAsUsize e.d_tag == i) = false := by simpa using heq
          rw [List.takeWhile_cons, htw, if_pos rfl, List.filter_cons, hfc,
            hset]
          simp

theorem parse_dynamic_static (p : Elf64)
    (h1 : p.program_header_table.find?
      (fun ph => ph.p_type == PT_DYNAMIC) = none)
    (h2 : p.section_header_table.find?
      (fun sh => sh.sh_type == SHT_DYNAMIC) = none) :
    parse_dynamic p = .ok p := by
  rw [parse_dynamic, dynTableCandidate, h1, h2]

/-- Claim C7: dynamic-table absorption stops at the first `DT_NULL` entry,
writes `d_val` at dense-table index `d_tag` for every preceding entry with
`d_tag < DT_NUM` (last write wins), and silently ignores entries with
`d_tag ≥ DT_NUM`; and when neither a `PT_DYNAMIC` program header nor an
`SHT_DYNAMIC` section exists, `parse_dynamic` (and hence parse) finishes
successfully with no dynamic relocations table and no dynamic symbol
table. -/
theorem claim7_dynamic :
    (∀ (l : List Elf64Dyn) (i : Nat), i < DT_NUM →
      (absorbDynEntries (List.replicate DT_NUM 0) l).getD i 0 =
        ((((l.takeWhile (fun e => e.d_tag != DT_NULL)).filter
          (fun e => tagAsUsize e.d_tag == i)).getLast?).elim 0
          (fun e => e.d_val)))
    ∧ (∀ p : Elf64,
        p.program_header_table.find?
          (fun ph => ph.p_type == PT_DYNAMIC) = none →
        p.section_header_table.find?
          (fun sh => sh.sh_type == SHT_DYNAMIC) = none →
        parse_dynamic p = .ok p)
    ∧ (∀ (base : Nat) (bytes : List Nat) (v : Elf64),
        parse base bytes = .ok v →
        v.program_header_table.find?
          (fun ph => ph.p_type == PT_DYNAMIC) = none →
        v.section_header_table.find?
          (fun sh => sh.sh_type == SHT_DYNAMIC) = none →
        v.dynamic_relocations_table = none
        ∧ v.dynamic_symbol_table = none) := by
  refine ⟨?_, parse_dynamic_static, ?_⟩
  · intro l i hi
    rw [absorbDynEntries_getD l (List.replicate DT_NUM 0) i hi (by simp),
      getD_replicate_zero]
  · intro base bytes v hparse h1 h2
    obtain ⟨pht, sht, p1, -, -, hdyn, hrel1, hsym1, hp1pht, hp1sht,
      hvpht, hvsht⟩ := parse_ok_elim hparse
    have hstat : parse_dynamic p1 = .ok p1 :=
      parse_dynamic_static p1 (by rw [hp1pht, ← hvpht]; exact h1)
        (by rw [hp1sht, ← hvsht]; exact h2)
    rw [hstat] at hdyn
    injection hdyn with hh
    rw [← hh]
    exact ⟨hrel1, hsym1⟩

/-- The dynamic entries used by the claim C7 witness: tags 21, 2, 2
(overwriting), a terminating `DT_NULL`, a tag past `DT_NUM` and entries
after the terminator (both ignored). -/
def c7Entries : List Elf64Dyn :=
  [{ d_tag := 21, d_val := 5 }, { d_tag := 2, d_val := 7 },
   { d_tag := 40, d_val := 13 }, { d_tag := 2, d_val := 9 },
   { d_tag := 0, d_val := 1 }, { d_tag := 3, d_val := 11 }]

/-- A parser state with no program headers and no sections (static). -/
def c7Static : Elf64 := initView 0 [] (decodeEhdr []) [] [] none

/-- Witness for claim C7: index 2 of the absorbed table holds the last
write 9 (tag 40 ignored, entries after `DT_NULL` ignored); index 3 stays 0;
the static state passes `parse_dynamic` unchanged; and the parsed c10
view has no dynamic tables. -/
theorem claim7_witness :
    (absorbDynEntries (List.replicate DT_NUM 0) c7Entries).getD 2 0 = 9
    ∧ (absorbDynEntries (List.replicate DT_NUM 0) c7Entries).getD 3 0 = 0
    ∧ parse_dynamic c7Static = .ok c7Static
    ∧ c10View.dynamic_relocations_table = none
    ∧ c10View.dynamic_symbol_table = none := by
  refine ⟨?_, ?_, ?_, ?_⟩
  · rw [claim7_dynamic.1 c7Entries 2 (by decide)]
    decide
  · rw [claim7_dynamic.1 c7Entries 3 (by decide)]
    decide
  · exact claim7_dynamic.2.1 c7Static rfl rfl
  · exact claim7_dynamic.2.2 0 c10Bytes c10View (by decide) (by decide)
      (by decide)

/-! ### Claim C8 -/

/-- Claim C8: for a call-immediate instruction the disassembler looks the
dialect's call-target key up in the program function registry (mnemonic
`call`); on a miss with `static_syscalls` false it looks `imm as u32` up in
the loader's registry (mnemonic `syscall`); a resolved name is rendered with
the lossy UTF-8 decoder and an unresolved call renders `[invalid]`, so with
both registries missing and `static_syscalls` false the output is exactly
`syscall [invalid]`. -/
theorem claim8_call_imm (utf8Lossy : List Nat → String) (insn : Insn)
    (pc : Nat) (cfg : Nat → Option CfgNode)
    (freg lreg : Nat → Option (List Nat)) (ver : SBPFVersion)
    (hop : insn.opc = .CALL_IMM) :
    (∀ nm, freg (ver.calculate_call_imm_target_pc pc insn.imm) = some nm →
      disassemble_instruction utf8Lossy insn pc cfg freg lreg ver =
        some ("call " ++ utf8Lossy nm))
    ∧ (freg (ver.calculate_call_imm_target_pc pc insn.imm) = none →
       ver.static_syscalls = false →
       disassemble_instruction utf8Lossy insn pc cfg freg lreg ver =
         some ("syscall "
           ++ ((lreg (u32OfInt insn.imm)).map utf8Lossy).getD "[invalid]"))
    ∧ (freg (ver.calculate_call_imm_target_pc pc insn.imm) = none →
       lreg (u32OfInt insn.imm) = none → ver.static_syscalls = false →
       disassemble_instruction utf8Lossy insn pc cfg freg lreg ver =
         some "syscall [invalid]") := by
  refine ⟨?_, ?_, ?_⟩
  · intro nm hnm
    simp [disassemble_instruction, hop, hnm]
  · intro hmiss hstat
    simp [disassemble_instruction, hop, hmiss, hstat]
  · intro hmiss hmiss2 hstat
    simp [disassemble_instruction, hop, hmiss, hmiss2, hstat]

/-- A concrete dialect record with every flag false, used by witnesses. -/
def defaultVer : SBPFVersion :=
  { move_memory_instruction_classes := false
    enable_pqr := false
    disable_neg := false
    static_syscalls := false
    callx_uses_src_reg := false
    calculate_call_imm_target_pc := fun p i => usizeOfInt ((p : Int) + i + 1) }

/-- Witness for claim C8: `insn = {opc = CALL_IMM, imm = 0xdead}`, both
registries miss, `static_syscalls = false`; the output is
`syscall [invalid]`. -/
theorem claim8_witness :
    disassemble_instruction (fun _ => "")
      { opc := .CALL_IMM, dst := 0, src := 0, off := 0, imm := 0xdead,
        ptr := 0 }
      0 (fun _ => none) (fun _ => none) (fun _ => none) defaultVer =
      some "syscall [invalid]" :=
  (claim8_call_imm (fun _ => "")
    { opc := .CALL_IMM, dst := 0, src := 0, off := 0, imm := 0xdead,
      ptr := 0 }
    0 (fun _ => none) (fun _ => none) (fun _ => none) defaultVer rfl).2.2
    rfl rfl rfl

/-! ### Claim C9 -/

/-- The conditional-jump-immediate opcodes and their mnemonics. -/
def jmpImmTable : List (Opc × String) :=
  [(.JEQ_IMM, "jeq"), (.JGT_IMM, "jgt"), (.JGE_IMM, "jge"),
   (.JLT_IMM, "jlt"), (.JLE_IMM, "jle"), (.JSET_IMM, "jset"),
   (.JNE_IMM, "jne"), (.JSGT_IMM, "jsgt"), (.JSGE_IMM, "jsge"),
   (.JSLT_IMM, "jslt"), (.JSLE_IMM, "jsle")]

/-- The conditional-jump-register opcodes and their mnemonics. -/
def jmpRegTable : List (Opc × String) :=
  [(.JEQ_REG, "jeq"), (.JGT_REG, "jgt"), (.JGE_REG, "jge"),
   (.JLT_REG, "jlt"), (.JLE_REG, "jle"), (.JSET_REG, "jset"),
   (.JNE_REG, "jne"), (.JSGT_REG, "jsgt"), (.JSGE_REG, "jsge"),
   (.JSLT_REG, "jslt"), (.JSLE_REG, "jsle")]

/-- Claim C9: for `ja` and every conditional jump, the rendered target label
is `resolve_label` at index `(insn.ptr as isize + off + 1) as usize`
(signed arithmetic, cast to an unsigned index); a present `cfg_nodes`
entry renders its `label` field and an absent one renders `[invalid]`. -/
theorem claim9_branch_targets (utf8Lossy : List Nat → String) (insn : Insn)
    (pc : Nat) (cfg : Nat → Option CfgNode)
    (freg lreg : Nat → Option (List Nat)) (ver : SBPFVersion) :
    (insn.opc = .JA →
      disassemble_instruction utf8Lossy insn pc cfg freg lreg ver =
        some ("ja " ++ resolve_label cfg (target_pc insn)))
    ∧ (∀ p ∈ jmpImmTable, insn.opc = p.1 →
        disassemble_instruction utf8Lossy insn pc cfg freg lreg ver =
          some (p.2 ++ " r" ++ toString insn.dst ++ ", "
            ++ toString insn.imm ++ ", "
            ++ resolve_label cfg (target_pc insn)))
    ∧ (∀ p ∈ jmpRegTable, insn.opc = p.1 →
        disassemble_instruction utf8Lossy insn pc cfg freg lreg ver =
          some (p.2 ++ " r" ++ toString insn.dst ++ ", r"
            ++ toString insn.src ++ ", "
            ++ resolve_label cfg (target_pc insn)))
    ∧ target_pc insn = usizeOfInt (isizeOfUsize insn.ptr + insn.off + 1)
    ∧ (∀ node, cfg (target_pc insn) = some node →
        resolve_label cfg (target_pc insn) = node.label)
    ∧ (cfg (target_pc insn) = none →
        resolve_label cfg (target_pc insn) = "[invalid]") := by
  refine ⟨?_, ?_, ?_, rfl, ?_, ?_⟩
  · intro hop
    simp [disassemble_instruction, hop]
  · intro p hp hop
    fin_cases hp <;> simp [disassemble_instruction, hop, jmp_imm_str]
  · intro p hp hop
    fin_cases hp <;> simp [disassemble_instruction, hop, jmp_reg_str]
  · intro node hnode
    simp [resolve_label, hnode]
  · intro hnone
    simp [resolve_label, hnone]

/-- The CFG map used by the claim C9 witness: a single node labelled
`loop` at instruction index 7. -/
def c9Cfg : Nat → Option CfgNode :=
  fun n => if n = 7 then some { label := "loop" } else none

/-- Witness for claim C9: the spec's backward-jump scenario
`jeq` with `dst = 1`, `imm = 7`, `off = -4`, `ptr = 10` and
`cfg_nodes[7].label = "loop"` renders `jeq r1, 7, loop`. -/
theorem claim9_witness :
    disassemble_instruction (fun _ => "")
      { opc := .JEQ_IMM, dst := 1, src := 0, off := -4, imm := 7, ptr := 10 }
      0 c9Cfg (fun _ => none) (fun _ => none) defaultVer =
      some "jeq r1, 7, loop" := by
  have h := (claim9_branch_targets (fun _ => "")
    { opc := .JEQ_IMM, dst := 1, src := 0, off := -4, imm := 7, ptr := 10 }
    0 c9Cfg (fun _ => none) (fun _ => none) defaultVer).2.1
    (.JEQ_IMM, "jeq") (by decide) rfl
  rw [h]
  decide

/-! ### Claim C10 -/

/-- Claim C10: a successful parse does not guarantee `symbol_table()`
succeeds: the `.symtab`-named section header is recorded without a type
check, and `symbol_table` fails with `InvalidSectionHeader` whenever its
`sh_type` is neither `SHT_SYMTAB` nor `SHT_DYNSYM`; when the type is
acceptable, `symbol_table` passes the size/bounds/alignment errors of
slice materialization through. -/
theorem claim10_symbol_table (base : Nat) (bytes : List Nat) (v : Elf64)
    (sh : Elf64Shdr) (hparse : parse base bytes = .ok v)
    (hrec : v.symbol_section_header = some sh) :
    (sh.sh_type ≠ SHT_SYMTAB → sh.sh_type ≠ SHT_DYNSYM →
      symbol_table v = .error .InvalidSectionHeader)
    ∧ (¬(sh.sh_type ≠ SHT_SYMTAB ∧ sh.sh_type ≠ SHT_DYNSYM) →
      symbol_table v =
        (slice_syms_from_section_header v.base_addr v.elf_bytes sh).map
          Option.some) := by
  constructor
  · intro h1 h2
    simp [symbol_table, hrec, get_symbol_table_of_section, h1, h2]
  · intro h
    simp only [symbol_table, hrec, get_symbol_table_of_section, if_neg h]
    cases slice_syms_from_section_header v.base_addr v.elf_bytes sh <;>
      simp [Except.map]

/-- Witness for claim C10: `c10Bytes` parses successfully, records a
`.symtab` section of type `SHT_PROGBITS`, and `symbol_table` then fails
with `InvalidSectionHeader`. -/
theorem claim10_witness :
    symbol_table c10View = .error .InvalidSectionHeader :=
  (claim10_symbol_table 0 c10Bytes c10View c10Symtab (by decide)
    (by decide)).1 (by decide) (by decide)

end Sbpf
